import Mathlib

/-!
Verification development for the Leo compiler front end.

Embedded components:
- the expression parser, from compiler/parser/src/parser/expression.rs;
- the AST visitor framework, from compiler/ast/src/passes/visitor.rs;
- the type-checking pass harness, from compiler/passes/src/type_checker/mod.rs.

The token source, span arithmetic, and a few parser-context helpers
(parse_list, parse_type, parse_array_dimensions, eat_group_partial,
assert_no_whitespace, TYPE_TOKENS, keyword_to_symbol, token_to_int_type)
live in crates or files that are not among the shown sources; those are
modelled from the specification's description of their contracts, and each
such definition says so in its doc comment.

All parsing functions are total via an explicit fuel parameter; running out
of fuel is reported as a distinguished error.  Parser state (remaining
tokens plus the circuit-construction flag) is threaded through every call
and returned also on error, mirroring the `&mut self` discipline of the
Rust source.
-/

set_option maxRecDepth 40000

/-- A source span: a half-open range of positions.  The leo_span crate is
external to the shown sources; the spec describes a span as the range a node
was parsed from, with parent spans composed by union (the `+` on spans). -/
structure Span where
  lo : Nat
  hi : Nat
deriving DecidableEq, Repr

/-- Union of two spans: the `+` operation the parser uses to compose the
span of a parent node from its children (spec section 3, Invariants). -/
def Span.union (a b : Span) : Span :=
  { lo := min a.lo b.lo, hi := max a.hi b.hi }

/-- The keyword, punctuation and operator token kinds consumed by the
shown parser code (the payload-free tokens). -/
inductive Keyword where
  | i8 | i16 | i32 | i64 | i128
  | u8 | u16 | u32 | u64 | u128
  | field | group | bool | address | char
  | true_ | false_
  | leftParen | rightParen | leftSquare | rightSquare | leftCurly | rightCurly
  | dot | dotDot | dotDotDot | comma | colon | semicolon | doubleColon
  | question | or | and | eq | notEq | lt | ltEq | gt | gtEq
  | add | minus | mul | div | exp | asKw | not
  | bigSelf | littleSelf | input
deriving DecidableEq, Repr

/-- The tokens consumed by the shown parser code.  The tokenizer is
external; this is the closed set of token kinds expression.rs mentions,
plus the type keyword tokens bool, address and char (members of
TYPE_TOKENS per the spec).  Payload-free kinds are carried by the `kw`
constructor; the abbreviations below restore the flat constructor-style
names used throughout. -/
inductive Token where
  | int (value : String)
  | addressLit (value : String)
  | charLit (value : Char)
  | stringLit (value : String)
  | ident (name : String)
  | kw (k : Keyword)
deriving DecidableEq, Repr

@[match_pattern] def Token.i8 : Token := .kw .i8
@[match_pattern] def Token.i16 : Token := .kw .i16
@[match_pattern] def Token.i32 : Token := .kw .i32
@[match_pattern] def Token.i64 : Token := .kw .i64
@[match_pattern] def Token.i128 : Token := .kw .i128
@[match_pattern] def Token.u8 : Token := .kw .u8
@[match_pattern] def Token.u16 : Token := .kw .u16
@[match_pattern] def Token.u32 : Token := .kw .u32
@[match_pattern] def Token.u64 : Token := .kw .u64
@[match_pattern] def Token.u128 : Token := .kw .u128
@[match_pattern] def Token.field : Token := .kw .field
@[match_pattern] def Token.group : Token := .kw .group
@[match_pattern] def Token.bool : Token := .kw .bool
@[match_pattern] def Token.address : Token := .kw .address
@[match_pattern] def Token.char : Token := .kw .char
@[match_pattern] def Token.true_ : Token := .kw .true_
@[match_pattern] def Token.false_ : Token := .kw .false_
@[match_pattern] def Token.leftParen : Token := .kw .leftParen
@[match_pattern] def Token.rightParen : Token := .kw .rightParen
@[match_pattern] def Token.leftSquare : Token := .kw .leftSquare
@[match_pattern] def Token.rightSquare : Token := .kw .rightSquare
@[match_pattern] def Token.leftCurly : Token := .kw .leftCurly
@[match_pattern] def Token.rightCurly : Token := .kw .rightCurly
@[match_pattern] def Token.dot : Token := .kw .dot
@[match_pattern] def Token.dotDot : Token := .kw .dotDot
@[match_pattern] def Token.dotDotDot : Token := .kw .dotDotDot
@[match_pattern] def Token.comma : Token := .kw .comma
@[match_pattern] def Token.colon : Token := .kw .colon
@[match_pattern] def Token.semicolon : Token := .kw .semicolon
@[match_pattern] def Token.doubleColon : Token := .kw .doubleColon
@[match_pattern] def Token.question : Token := .kw .question
@[match_pattern] def Token.or : Token := .kw .or
@[match_pattern] def Token.and : Token := .kw .and
@[match_pattern] def Token.eq : Token := .kw .eq
@[match_pattern] def Token.notEq : Token := .kw .notEq
@[match_pattern] def Token.lt : Token := .kw .lt
@[match_pattern] def Token.ltEq : Token := .kw .ltEq
@[match_pattern] def Token.gt : Token := .kw .gt
@[match_pattern] def Token.gtEq : Token := .kw .gtEq
@[match_pattern] def Token.add : Token := .kw .add
@[match_pattern] def Token.minus : Token := .kw .minus
@[match_pattern] def Token.mul : Token := .kw .mul
@[match_pattern] def Token.div : Token := .kw .div
@[match_pattern] def Token.exp : Token := .kw .exp
@[match_pattern] def Token.asKw : Token := .kw .asKw
@[match_pattern] def Token.not : Token := .kw .not
@[match_pattern] def Token.bigSelf : Token := .kw .bigSelf
@[match_pattern] def Token.littleSelf : Token := .kw .littleSelf
@[match_pattern] def Token.input : Token := .kw .input

/-- A token paired with its span. -/
structure SpannedToken where
  token : Token
  span : Span
deriving DecidableEq, Repr

/-- Rendering of a token used inside error payloads (the Display instance
of the external tokenizer; message text is not claim-relevant). -/
def Token.text : Token → String
  | .int v => v
  | .ident n => n
  | .addressLit v => v
  | .stringLit v => v
  | _ => "token"

/-- BinaryOperation from the AST crate (the operators the shown parser
produces). -/
inductive BinaryOperation where
  | or | and | eq | ne | lt | le | gt | ge | add | sub | mul | div | pow
deriving DecidableEq, Repr

/-- UnaryOperation from the AST crate. -/
inductive UnaryOperation where
  | not | negate
deriving DecidableEq, Repr

/-- The sized integer types (IntegerType in the AST crate). -/
inductive IntegerType where
  | i8 | i16 | i32 | i64 | i128 | u8 | u16 | u32 | u64 | u128
deriving DecidableEq, Repr

/-- Modelled from the spec: cast target type.  The full type grammar is a
declared non-goal of the spec, so a type is represented by its head keyword
symbol. -/
structure AstType where
  name : String
deriving DecidableEq, Repr

/-- GroupValue from the AST crate: a single group coordinate literal or an
affine coordinate pair. -/
inductive GroupValue where
  | single (value : String) (span : Span)
  | tuple (x : String) (y : String) (span : Span)
deriving DecidableEq, Repr

/-- ValueExpression: the literal kinds listed in the spec's data model and
constructed by parse_primary_expression. -/
inductive ValueExpression where
  | field (value : String) (span : Span)
  | group (value : GroupValue)
  | integer (type_ : IntegerType) (value : String) (span : Span)
  | implicit (value : String) (span : Span)
  | boolean (value : String) (span : Span)
  | address (value : String) (span : Span)
  | char (value : Char) (span : Span)
  | string (value : String) (span : Span)
deriving DecidableEq, Repr

mutual
/-- The expression AST produced by the parser: the closed variant set of the
spec's data model, each node carrying its span.  Access sub-variants are
flattened into constructors. -/
inductive Expression where
  | identifier (name : String) (span : Span)
  | value (v : ValueExpression)
  | binary (op : BinaryOperation) (left : Expression) (right : Expression) (span : Span)
  | unary (op : UnaryOperation) (inner : Expression) (span : Span)
  | ternary (condition : Expression) (if_true : Expression) (if_false : Expression) (span : Span)
  | cast (inner : Expression) (target_type : AstType) (span : Span)
  | call (function : Expression) (arguments : List Expression) (span : Span)
  | arrayAccess (array : Expression) (index : Expression) (span : Span)
  | arrayRangeAccess (array : Expression) (left : Option Expression) (right : Option Expression) (span : Span)
  | memberAccess (inner : Expression) (name : String) (span : Span)
  | tupleAccess (tuple : Expression) (index : String) (span : Span)
  | staticAccess (inner : Expression) (name : String) (span : Span)
  | circuitInit (name : String) (name_span : Span) (members : List CircuitVariableInitializer) (span : Span)
  | tupleInit (elements : List Expression) (span : Span)
  | arrayInline (elements : List SpreadOrExpression) (span : Span)
  | arrayInit (element : Expression) (dimensions : List String) (span : Span)
  | err (span : Span)
/-- SpreadOrExpression: an array element, either a spread or a plain
expression. -/
inductive SpreadOrExpression where
  | spread (e : Expression)
  | expression (e : Expression)
/-- CircuitVariableInitializer: a circuit-init member, a field name with an
optional explicit value (absence is the shorthand form). -/
inductive CircuitVariableInitializer where
  | mk (identifier : String) (identifier_span : Span) (expression : Option Expression)
end

/-- The span of a group literal. -/
def GroupValue.span : GroupValue → Span
  | .single _ sp => sp
  | .tuple _ _ sp => sp

/-- The span of a literal value. -/
def ValueExpression.span : ValueExpression → Span
  | .field _ sp => sp
  | .group g => g.span
  | .integer _ _ sp => sp
  | .implicit _ sp => sp
  | .boolean _ sp => sp
  | .address _ sp => sp
  | .char _ sp => sp
  | .string _ sp => sp

/-- The span of an expression node (the Rust `expr.span()`). -/
def Expression.span : Expression → Span
  | .identifier _ sp => sp
  | .value v => v.span
  | .binary _ _ _ sp => sp
  | .unary _ _ sp => sp
  | .ternary _ _ _ sp => sp
  | .cast _ _ sp => sp
  | .call _ _ sp => sp
  | .arrayAccess _ _ sp => sp
  | .arrayRangeAccess _ _ _ sp => sp
  | .memberAccess _ _ sp => sp
  | .tupleAccess _ _ sp => sp
  | .staticAccess _ _ sp => sp
  | .circuitInit _ _ _ sp => sp
  | .tupleInit _ sp => sp
  | .arrayInline _ sp => sp
  | .arrayInit _ _ sp => sp
  | .err sp => sp

/-- The parse error taxonomy of the spec (section 7), plus a distinguished
out-of-fuel error for the fuel encoding. -/
inductive ParseError where
  | unexpected (got : String) (expected : String) (span : Span)
  | unexpectedEof
  | unableToParseArrayDimensions (span : Span)
  | spreadInArrayInit (span : Span)
  | unexpectedWhitespace (left : String) (right : String) (span : Span)
  | outOfFuel
deriving DecidableEq, Repr

/-- Parser state: the remaining token stream and the circuit-construction
flag (the only parser-context fields the shown code reads or writes). -/
structure ParserContext where
  tokens : List SpannedToken
  disallow_circuit_construction : Bool
deriving DecidableEq, Repr

/-- Modelled from the spec (token source contract): peek at the next token
without consuming it. -/
def ParserContext.peek_token (p : ParserContext) : Option Token :=
  p.tokens.head?.map (fun st => st.token)

/-- Modelled from the spec (token source contract): the next spanned token,
or an end-of-input error. -/
def ParserContext.peek (p : ParserContext) : Except ParseError SpannedToken :=
  match p.tokens with
  | st :: _ => .ok st
  | [] => .error .unexpectedEof

/-- Modelled from the spec (token source contract): consume the next token
only if it is exactly `t`. -/
def ParserContext.eat (p : ParserContext) (t : Token) : Option SpannedToken × ParserContext :=
  match p.tokens with
  | st :: rest => if st.token = t then (some st, { p with tokens := rest }) else (none, p)
  | [] => (none, p)

/-- Modelled from the spec (token source contract): consume the next token
only if it is one of the candidates. -/
def ParserContext.eat_any (p : ParserContext) (ts : List Token) : Option SpannedToken × ParserContext :=
  match p.tokens with
  | st :: rest => if ts.contains st.token then (some st, { p with tokens := rest }) else (none, p)
  | [] => (none, p)

/-- Modelled from the spec (token source contract): consume exactly `t` or
fail with an unexpected-token error, without consuming. -/
def ParserContext.expect (p : ParserContext) (t : Token) : Except ParseError Span × ParserContext :=
  match p.tokens with
  | st :: rest =>
    if st.token = t then (.ok st.span, { p with tokens := rest })
    else (.error (.unexpected st.token.text t.text st.span), p)
  | [] => (.error .unexpectedEof, p)

/-- Modelled from the spec (token source contract): consume the next token
whatever it is, failing only at end of input. -/
def ParserContext.expect_any (p : ParserContext) : Except ParseError SpannedToken × ParserContext :=
  match p.tokens with
  | st :: rest => (.ok st, { p with tokens := rest })
  | [] => (.error .unexpectedEof, p)

/-- Modelled from the spec (token source contract): consume an identifier
token if one is next. -/
def ParserContext.eat_identifier (p : ParserContext) : Option (String × Span) × ParserContext :=
  match p.tokens with
  | ⟨.ident n, sp⟩ :: rest => (some (n, sp), { p with tokens := rest })
  | _ => (none, p)

/-- Modelled from the spec (token source contract): consume an integer
literal token if one is next. -/
def ParserContext.eat_int (p : ParserContext) : Option (String × Span) × ParserContext :=
  match p.tokens with
  | ⟨.int v, sp⟩ :: rest => (some (v, sp), { p with tokens := rest })
  | _ => (none, p)

/-- Modelled from the spec (token source contract): consume an identifier
or fail with an unexpected-token error. -/
def ParserContext.expect_ident (p : ParserContext) : Except ParseError (String × Span) × ParserContext :=
  match p.tokens with
  | ⟨.ident n, sp⟩ :: rest => (.ok (n, sp), { p with tokens := rest })
  | st :: _ => (.error (.unexpected st.token.text "ident" st.span), p)
  | [] => (.error .unexpectedEof, p)

/-- Modelled from the spec: eat_group_partial, the domain-specific token
source helper that disambiguates an affine-group-literal tuple from an
ordinary tuple.  After the opening parenthesis has been consumed it
recognizes a coordinate pair of shape `x , y ) group`, consuming it and
returning the two coordinates and the combined span; otherwise it consumes
nothing. -/
def ParserContext.eat_group_partial (p : ParserContext) :
    Option (String × String × Span) × ParserContext :=
  match p.tokens with
  | ⟨.int x, sp1⟩ :: ⟨.comma, _⟩ :: ⟨.int y, _⟩ :: ⟨.rightParen, _⟩ :: ⟨.group, sp5⟩ :: rest =>
    (some (x, y, sp1.union sp5), { p with tokens := rest })
  | _ => (none, p)

/-- INT_TYPES, expression.rs lines 22 to 35: the tokens accepted as an
adjoining suffix of an integer literal. -/
def INT_TYPES : List Token :=
  [.i8, .i16, .i32, .i64, .i128, .u8, .u16, .u32, .u64, .u128, .field, .group]

/-- Modelled from the spec: TYPE_TOKENS from the parser's type module (not
among the shown sources); the type keyword tokens, that is the sized
integer kinds plus field, group, bool, address and char. -/
def TYPE_TOKENS : List Token :=
  [.i8, .i16, .i32, .i64, .i128, .u8, .u16, .u32, .u64, .u128,
   .field, .group, .bool, .address, .char]

/-- Modelled from the spec: keyword_to_symbol from the external tokenizer;
maps a type keyword token to its interned symbol, here its spelling. -/
def Token.keyword_to_symbol : Token → Option String
  | .i8 => some "i8"
  | .i16 => some "i16"
  | .i32 => some "i32"
  | .i64 => some "i64"
  | .i128 => some "i128"
  | .u8 => some "u8"
  | .u16 => some "u16"
  | .u32 => some "u32"
  | .u64 => some "u64"
  | .u128 => some "u128"
  | .field => some "field"
  | .group => some "group"
  | .bool => some "bool"
  | .address => some "address"
  | .char => some "char"
  | _ => none

/-- token_to_int_type (a parser-context helper not among the shown
sources).  Modelled from the spec: maps a sized-integer keyword token to
its integer type. -/
def token_to_int_type : Token → Option IntegerType
  | .i8 => some .i8
  | .i16 => some .i16
  | .i32 => some .i32
  | .i64 => some .i64
  | .i128 => some .i128
  | .u8 => some .u8
  | .u16 => some .u16
  | .u32 => some .u32
  | .u64 => some .u64
  | .u128 => some .u128
  | _ => none

/-- Modelled from the spec: assert_no_whitespace (a parser helper not among
the shown sources) fails with the whitespace-adjacency error when the
numeric literal's span and its suffix's span are not adjacent. -/
def assert_no_whitespace (left_span right_span : Span) (left right : String) :
    Except ParseError Unit :=
  if left_span.hi = right_span.lo then .ok ()
  else .error (.unexpectedWhitespace left right (left_span.union right_span))

/-- The result of a parsing step: an expression or error, together with the
parser state after the step (returned also on error, mirroring `&mut self`
in the Rust source). -/
abbrev PResult (α : Type) : Type := Except ParseError α × ParserContext

/-- Sequencing of parser steps: on success continue with the produced value
and the updated state, on error propagate the error with the state at the
point of failure (the behavior of the `?` operator on `&mut self`
methods). -/
def pbind {α β : Type} (r : PResult α) (k : α → ParserContext → PResult β) : PResult β :=
  match r with
  | (.error e, p) => (.error e, p)
  | (.ok x, p) => k x p

/-- bin_expr, lines 84-91: construct the binary node `left op right`, whose
span is the union of the children's spans. -/
def bin_expr (left right : Expression) (op : BinaryOperation) : Expression :=
  .binary op left right (left.span.union right.span)

/-- Modelled from the spec: parse_type (the type grammar is a declared
non-goal); a type is a single type keyword token, anything else is an
unexpected-token error. -/
def parse_type (p : ParserContext) : PResult (AstType × Span) :=
  match p.eat_any TYPE_TOKENS with
  | (some st, p) => (.ok (⟨(st.token.keyword_to_symbol).getD ""⟩, st.span), p)
  | (none, p) =>
    match p.peek with
    | .ok next => (.error (.unexpected next.token.text "type" next.span), p)
    | .error e => (.error e, p)

/-- Modelled from the spec: parse_array_dimensions (not among the shown
sources); a dimension list, here a single integer literal dimension. -/
def parse_array_dimensions (p : ParserContext) : PResult (List String) :=
  match p.eat_int with
  | (some (v, _), p) => (.ok [v], p)
  | (none, p) =>
    match p.peek with
    | .ok next => (.error (.unexpected next.token.text "array dimension" next.span), p)
    | .error e => (.error e, p)

/-- The prefix-operator collection loop of parse_unary_expression (lines
240-243): repeatedly eat `!` or `-` tokens.  Recursion is on the number of
remaining tokens, which the loop strictly consumes. -/
def eat_unary_ops (fuel : Nat) (ops : List SpannedToken) (p : ParserContext) :
    List SpannedToken × ParserContext :=
  match fuel with
  | 0 => (ops, p)
  | fuel + 1 =>
    match p.eat_any [.not, .minus] with
    | (some st, p) => eat_unary_ops fuel (ops ++ [st]) p
    | (none, p) => (ops, p)

/-- The folding loop of parse_unary_expression (lines 245-256): wrap the
operand in the collected prefix operators, innermost first (iterating the
collected list in reverse), each new node spanning from the operator to the
operand.  Tokens other than `!` map to negation; the collection loop only
ever yields `!` and `-` tokens, matching the source's unreachable branch. -/
def apply_unary_ops (ops : List SpannedToken) (inner : Expression) : Expression :=
  ops.reverse.foldl
    (fun acc op =>
      match op.token with
      | .not => .unary .not acc (op.span.union acc.span)
      | _ => .unary .negate acc (op.span.union acc.span))
    inner

mutual

/-- parse_expression, lines 42-56: save the circuit-construction flag,
clear it, parse a conditional expression, restore the flag, and return the
result whether it is a success or an error. -/
def parse_expression (fuel : Nat) (p : ParserContext) : PResult Expression :=
match fuel with
| 0 => (.error .outOfFuel, p)
| fuel + 1 =>
  let prior_fuzzy_state := p.disallow_circuit_construction
  let p := { p with disallow_circuit_construction := false }
  let r := parse_conditional_expression fuel p
  (r.1, { r.2 with disallow_circuit_construction := prior_fuzzy_state })
termination_by structural fuel

/-- parse_conditional_expression, lines 64-81: a disjunctive operand, then
an optional `? expr : conditional` tail; the true branch is a full
parse_expression, the false branch recurses into this same level, and the
ternary's span is the union of the condition's and false branch's spans. -/
def parse_conditional_expression (fuel : Nat) (p : ParserContext) : PResult Expression :=
match fuel with
| 0 => (.error .outOfFuel, p)
| fuel + 1 =>
  pbind (parse_disjunctive_expression fuel p) fun expr p =>
    match p.eat .question with
    | (none, p) => (.ok expr, p)
    | (some _, p) =>
      pbind (parse_expression fuel p) fun if_true p =>
      pbind (p.expect .colon) fun _ p =>
      pbind (parse_conditional_expression fuel p) fun if_false p =>
        (.ok (.ternary expr if_true if_false (expr.span.union if_false.span)), p)
termination_by structural fuel

/-- parse_disjunctive_expression, lines 112-114: parse_bin_expr
instantiated at Token::Or / BinaryOperation::Or over conjunctive
operands. -/
def parse_disjunctive_expression (fuel : Nat) (p : ParserContext) : PResult Expression :=
match fuel with
| 0 => (.error .outOfFuel, p)
| fuel + 1 =>
  pbind (parse_conjunctive_expression fuel p) fun expr p =>
    parse_disjunctive_loop fuel expr p
termination_by structural fuel

/-- The while loop of parse_bin_expr (lines 101-105) at the disjunctive
level: while an `or` token is eaten, fold the accumulated expression with
the next conjunctive operand. -/
def parse_disjunctive_loop (fuel : Nat) (expr : Expression) (p : ParserContext) :
    PResult Expression :=
match fuel with
| 0 => (.error .outOfFuel, p)
| fuel + 1 =>
  match p.eat .or with
  | (none, p) => (.ok expr, p)
  | (some _, p) =>
    pbind (parse_conjunctive_expression fuel p) fun right p =>
      parse_disjunctive_loop fuel (bin_expr expr right .or) p
termination_by structural fuel

/-- parse_conjunctive_expression, lines 120-122: parse_bin_expr
instantiated at Token::And / BinaryOperation::And over equality
operands. -/
def parse_conjunctive_expression (fuel : Nat) (p : ParserContext) : PResult Expression :=
match fuel with
| 0 => (.error .outOfFuel, p)
| fuel + 1 =>
  pbind (parse_equality_expression fuel p) fun expr p =>
    parse_conjunctive_loop fuel expr p
termination_by structural fuel

/-- The parse_bin_expr while loop at the conjunctive level. -/
def parse_conjunctive_loop (fuel : Nat) (expr : Expression) (p : ParserContext) :
    PResult Expression :=
match fuel with
| 0 => (.error .outOfFuel, p)
| fuel + 1 =>
  match p.eat .and with
  | (none, p) => (.ok expr, p)
  | (some _, p) =>
    pbind (parse_equality_expression fuel p) fun right p =>
      parse_conjunctive_loop fuel (bin_expr expr right .and) p
termination_by structural fuel

/-- parse_equality_expression, lines 128-140: an ordering operand and at
most one `==` or `!=` application (single application, no loop).  The
unreachable match arm of the source is modelled as an internal error. -/
def parse_equality_expression (fuel : Nat) (p : ParserContext) : PResult Expression :=
match fuel with
| 0 => (.error .outOfFuel, p)
| fuel + 1 =>
  pbind (parse_ordering_expression fuel p) fun expr p =>
    match p.eat_any [.eq, .notEq] with
    | (none, p) => (.ok expr, p)
    | (some st, p) =>
      pbind (parse_ordering_expression fuel p) fun right p =>
        match st.token with
        | .eq => (.ok (bin_expr expr right .eq), p)
        | .notEq => (.ok (bin_expr expr right .ne), p)
        | _ => (.error (.unexpected st.token.text "internal: equality operator" st.span), p)
termination_by structural fuel

/-- parse_ordering_expression, lines 146-161: an additive operand followed
by a while loop over `<`, `<=`, `>`, `>=`. -/
def parse_ordering_expression (fuel : Nat) (p : ParserContext) : PResult Expression :=
match fuel with
| 0 => (.error .outOfFuel, p)
| fuel + 1 =>
  pbind (parse_additive_expression fuel p) fun expr p =>
    parse_ordering_loop fuel expr p
termination_by structural fuel

/-- The while loop of parse_ordering_expression: each iteration eats one
ordering operator, parses one additive operand, and wraps the accumulated
expression as the left operand of a new binary node. -/
def parse_ordering_loop (fuel : Nat) (expr : Expression) (p : ParserContext) :
    PResult Expression :=
match fuel with
| 0 => (.error .outOfFuel, p)
| fuel + 1 =>
  match p.eat_any [.lt, .ltEq, .gt, .gtEq] with
  | (none, p) => (.ok expr, p)
  | (some st, p) =>
    pbind (parse_additive_expression fuel p) fun right p =>
      match st.token with
      | .lt => parse_ordering_loop fuel (bin_expr expr right .lt) p
      | .ltEq => parse_ordering_loop fuel (bin_expr expr right .le) p
      | .gt => parse_ordering_loop fuel (bin_expr expr right .gt) p
      | .gtEq => parse_ordering_loop fuel (bin_expr expr right .ge) p
      | _ => (.error (.unexpected st.token.text "internal: ordering operator" st.span), p)
termination_by structural fuel

/-- parse_additive_expression, lines 167-179: a multiplicative operand
followed by a while loop over `+` and `-`. -/
def parse_additive_expression (fuel : Nat) (p : ParserContext) : PResult Expression :=
match fuel with
| 0 => (.error .outOfFuel, p)
| fuel + 1 =>
  pbind (parse_multiplicative_expression fuel p) fun expr p =>
    parse_additive_loop fuel expr p
termination_by structural fuel

/-- The while loop of parse_additive_expression. -/
def parse_additive_loop (fuel : Nat) (expr : Expression) (p : ParserContext) :
    PResult Expression :=
match fuel with
| 0 => (.error .outOfFuel, p)
| fuel + 1 =>
  match p.eat_any [.add, .minus] with
  | (none, p) => (.ok expr, p)
  | (some st, p) =>
    pbind (parse_multiplicative_expression fuel p) fun right p =>
      match st.token with
      | .add => parse_additive_loop fuel (bin_expr expr right .add) p
      | .minus => parse_additive_loop fuel (bin_expr expr right .sub) p
      | _ => (.error (.unexpected st.token.text "internal: additive operator" st.span), p)
termination_by structural fuel

/-- parse_multiplicative_expression, lines 185-197: an exponential operand
followed by a while loop over `*` and `/`. -/
def parse_multiplicative_expression (fuel : Nat) (p : ParserContext) : PResult Expression :=
match fuel with
| 0 => (.error .outOfFuel, p)
| fuel + 1 =>
  pbind (parse_exponential_expression fuel p) fun expr p =>
    parse_multiplicative_loop fuel expr p
termination_by structural fuel

/-- The while loop of parse_multiplicative_expression. -/
def parse_multiplicative_loop (fuel : Nat) (expr : Expression) (p : ParserContext) :
    PResult Expression :=
match fuel with
| 0 => (.error .outOfFuel, p)
| fuel + 1 =>
  match p.eat_any [.mul, .div] with
  | (none, p) => (.ok expr, p)
  | (some st, p) =>
    pbind (parse_exponential_expression fuel p) fun right p =>
      match st.token with
      | .mul => parse_multiplicative_loop fuel (bin_expr expr right .mul) p
      | .div => parse_multiplicative_loop fuel (bin_expr expr right .div) p
      | _ => (.error (.unexpected st.token.text "internal: multiplicative operator" st.span), p)
termination_by structural fuel

/-- parse_exponential_expression, lines 203-212: a cast operand and, if a
`^` token follows, a recursive call to this same level for the right
operand (right associativity by recursion instead of a loop). -/
def parse_exponential_expression (fuel : Nat) (p : ParserContext) : PResult Expression :=
match fuel with
| 0 => (.error .outOfFuel, p)
| fuel + 1 =>
  pbind (parse_cast_expression fuel p) fun expr p =>
    match p.eat .exp with
    | (none, p) => (.ok expr, p)
    | (some _, p) =>
      pbind (parse_exponential_expression fuel p) fun right p =>
        (.ok (bin_expr expr right .pow), p)
termination_by structural fuel

/-- parse_cast_expression, lines 220-231: a unary operand followed by a
while loop over `as <type>`, each iteration wrapping the accumulated
expression in a cast spanning to the type's span. -/
def parse_cast_expression (fuel : Nat) (p : ParserContext) : PResult Expression :=
match fuel with
| 0 => (.error .outOfFuel, p)
| fuel + 1 =>
  pbind (parse_unary_expression fuel p) fun expr p =>
    parse_cast_loop fuel expr p
termination_by structural fuel

/-- The while loop of parse_cast_expression. -/
def parse_cast_loop (fuel : Nat) (expr : Expression) (p : ParserContext) :
    PResult Expression :=
match fuel with
| 0 => (.error .outOfFuel, p)
| fuel + 1 =>
  match p.eat .asKw with
  | (none, p) => (.ok expr, p)
  | (some _, p) =>
    pbind (parse_type p) fun ts p =>
      parse_cast_loop fuel (.cast expr ts.1 (expr.span.union ts.2)) p
termination_by structural fuel

/-- parse_unary_expression, lines 239-258: collect leading `!` and `-`
tokens, parse a postfix operand, then apply the collected operators from
the innermost outward. -/
def parse_unary_expression (fuel : Nat) (p : ParserContext) : PResult Expression :=
match fuel with
| 0 => (.error .outOfFuel, p)
| fuel + 1 =>
  let r := eat_unary_ops p.tokens.length [] p
  pbind (parse_postfix_expression fuel r.2) fun inner p =>
    (.ok (apply_unary_ops r.1 inner), p)
termination_by structural fuel

/-- parse_postfix_expression, lines 266-367: a primary operand followed by
the postfix chain loop. -/
def parse_postfix_expression (fuel : Nat) (p : ParserContext) : PResult Expression :=
match fuel with
| 0 => (.error .outOfFuel, p)
| fuel + 1 =>
  pbind (parse_primary_expression fuel p) fun expr p =>
    parse_postfix_loop fuel expr p
termination_by structural fuel

/-- The while loop of parse_postfix_expression (lines 271-365): eat one of
`[`, `.`, `(`, `::` and build the corresponding index, range, member,
tuple-index, call or static access node, then continue the chain.  The
unreachable arm of the source's match is modelled as an internal error. -/
def parse_postfix_loop (fuel : Nat) (expr : Expression) (p : ParserContext) :
    PResult Expression :=
match fuel with
| 0 => (.error .outOfFuel, p)
| fuel + 1 =>
  match p.eat_any [.leftSquare, .dot, .leftParen, .doubleColon] with
  | (none, p) => (.ok expr, p)
  | (some st, p) =>
    match st.token with
    | .leftSquare =>
      (match p.eat .dotDot with
       | (some _, p) =>
         pbind (parse_range_right fuel p) fun right p =>
         pbind (p.expect .rightSquare) fun end_span p =>
           parse_postfix_loop fuel
             (.arrayRangeAccess expr none right (expr.span.union end_span)) p
       | (none, p) =>
         pbind (parse_expression fuel p) fun left p =>
           match p.eat .dotDot with
           | (some _, p) =>
             pbind (parse_range_right fuel p) fun right p =>
             pbind (p.expect .rightSquare) fun end_span p =>
               parse_postfix_loop fuel
                 (.arrayRangeAccess expr (some left) right (expr.span.union end_span)) p
           | (none, p) =>
             pbind (p.expect .rightSquare) fun end_span p =>
               parse_postfix_loop fuel
                 (.arrayAccess expr left (expr.span.union end_span)) p)
    | .dot =>
      (match p.eat_identifier with
       | (some id, p) =>
         parse_postfix_loop fuel (.memberAccess expr id.1 (expr.span.union id.2)) p
       | (none, p) =>
         match p.eat_int with
         | (some num, p) =>
           parse_postfix_loop fuel (.tupleAccess expr num.1 (expr.span.union num.2)) p
         | (none, p) =>
           match p.peek with
           | .ok next => (.error (.unexpected next.token.text "int or ident" next.span), p)
           | .error e => (.error e, p))
    | .leftParen =>
      pbind (parse_call_arguments fuel [] p) fun r p =>
        parse_postfix_loop fuel (.call expr r.1 (expr.span.union r.2)) p
    | .doubleColon =>
      pbind p.expect_ident fun id p =>
        parse_postfix_loop fuel (.staticAccess expr id.1 (expr.span.union id.2)) p
    | _ => (.error (.unexpected st.token.text "internal: postfix operator" st.span), p)
termination_by structural fuel

/-- The optional right bound of a range access (lines 275-279 and 293-297):
parse a full expression unless the next token is `]`. -/
def parse_range_right (fuel : Nat) (p : ParserContext) : PResult (Option Expression) :=
match fuel with
| 0 => (.error .outOfFuel, p)
| fuel + 1 =>
  if p.peek_token ≠ some Token.rightSquare then
    pbind (parse_expression fuel p) fun e p => (.ok (some e), p)
  else (.ok none, p)
termination_by structural fuel

/-- The call-argument loop (lines 335-347): at each iteration first try to
eat `)` and stop; otherwise parse one argument expression; if a comma
follows continue, otherwise require `)` and stop.  Returns the argument
list and the closing parenthesis span. -/
def parse_call_arguments (fuel : Nat) (arguments : List Expression) (p : ParserContext) :
    PResult (List Expression × Span) :=
match fuel with
| 0 => (.error .outOfFuel, p)
| fuel + 1 =>
  match p.eat .rightParen with
  | (some endTok, p) => (.ok (arguments, endTok.span), p)
  | (none, p) =>
    pbind (parse_expression fuel p) fun a p =>
      match p.eat .comma with
      | (some _, p) => parse_call_arguments fuel (arguments ++ [a]) p
      | (none, p) =>
        pbind (p.expect .rightParen) fun end_span p =>
          (.ok (arguments ++ [a], end_span), p)
termination_by structural fuel

/-- parse_spread_or_expression, lines 375-381: a `...`-prefixed spread or a
plain expression. -/
def parse_spread_or_expression (fuel : Nat) (p : ParserContext) : PResult SpreadOrExpression :=
match fuel with
| 0 => (.error .outOfFuel, p)
| fuel + 1 =>
  match p.eat .dotDotDot with
  | (some _, p) => pbind (parse_expression fuel p) fun e p => (.ok (.spread e), p)
  | (none, p) => pbind (parse_expression fuel p) fun e p => (.ok (.expression e), p)
termination_by structural fuel

/-- parse_circuit_expression, lines 385-397: parse_list over curly braces
with comma separators, each item an identifier with an optional
`: expression` initializer; the node spans from the identifier through the
closing brace. -/
def parse_circuit_expression (fuel : Nat) (identifier : String) (identifier_span : Span)
    (p : ParserContext) : PResult Expression :=
match fuel with
| 0 => (.error .outOfFuel, p)
| fuel + 1 =>
  pbind (p.expect .leftCurly) fun open_span p =>
  pbind (parse_circuit_members fuel [] p) fun r p =>
    (.ok (.circuitInit identifier identifier_span r.1
            (identifier_span.union (open_span.union r.2))), p)
termination_by structural fuel

/-- Modelled from the spec together with the closure at lines 386-391: the
body of parse_list (a parser-context helper not among the shown sources)
instantiated for circuit members: until the closing brace, parse an
identifier with an optional `: expression` value, separated by commas, a
trailing comma before the closing brace permitted.  Returns the members and
the closing brace span. -/
def parse_circuit_members (fuel : Nat) (members : List CircuitVariableInitializer)
    (p : ParserContext) : PResult (List CircuitVariableInitializer × Span) :=
match fuel with
| 0 => (.error .outOfFuel, p)
| fuel + 1 =>
  match p.eat .rightCurly with
  | (some endTok, p) => (.ok (members, endTok.span), p)
  | (none, p) =>
    pbind p.expect_ident fun id p =>
      match p.eat .colon with
      | (some _, p) =>
        pbind (parse_expression fuel p) fun e p =>
          (match p.eat .comma with
           | (some _, p) =>
             parse_circuit_members fuel (members ++ [.mk id.1 id.2 (some e)]) p
           | (none, p) =>
             pbind (p.expect .rightCurly) fun end_span p =>
               (.ok (members ++ [.mk id.1 id.2 (some e)], end_span), p))
      | (none, p) =>
        (match p.eat .comma with
         | (some _, p) =>
           parse_circuit_members fuel (members ++ [.mk id.1 id.2 none]) p
         | (none, p) =>
           pbind (p.expect .rightCurly) fun end_span p =>
             (.ok (members ++ [.mk id.1 id.2 none], end_span), p))
termination_by structural fuel

/-- parse_tuple_expression, lines 403-436 (called with the span of the
already-consumed opening parenthesis): first try the affine group literal
short cut; otherwise collect a comma-separated expression list up to `)`;
a collected list of exactly one expression is returned unwrapped, any other
length becomes a tuple-init spanning the parentheses. -/
def parse_tuple_expression (fuel : Nat) (span : Span) (p : ParserContext) :
    PResult Expression :=
match fuel with
| 0 => (.error .outOfFuel, p)
| fuel + 1 =>
  match p.eat_group_partial with
  | (some g, p) => (.ok (.value (.group (.tuple g.1 g.2.1 g.2.2))), p)
  | (none, p) =>
    pbind (parse_tuple_args fuel [] p) fun r p =>
      match r.1 with
      | [e] => (.ok e, p)
      | args => (.ok (.tupleInit args (span.union r.2)), p)
termination_by structural fuel

/-- The element loop of parse_tuple_expression (lines 413-427), of the same
shape as the call-argument loop. -/
def parse_tuple_args (fuel : Nat) (args : List Expression) (p : ParserContext) :
    PResult (List Expression × Span) :=
match fuel with
| 0 => (.error .outOfFuel, p)
| fuel + 1 =>
  match p.eat .rightParen with
  | (some endTok, p) => (.ok (args, endTok.span), p)
  | (none, p) =>
    pbind (parse_expression fuel p) fun e p =>
      match p.eat .comma with
      | (some _, p) => parse_tuple_args fuel (args ++ [e]) p
      | (none, p) =>
        pbind (p.expect .rightParen) fun end_span p =>
          (.ok (args ++ [e], end_span), p)
termination_by structural fuel

/-- parse_array_expression, lines 442-493 (called with the span of the
already-consumed opening bracket): an empty inline array, or a first
spread-or-expression element followed either by `; dimensions ]` (a repeat
array, whose element must not be a spread) or by the inline element
loop. -/
def parse_array_expression (fuel : Nat) (span : Span) (p : ParserContext) :
    PResult Expression :=
match fuel with
| 0 => (.error .outOfFuel, p)
| fuel + 1 =>
  match p.eat .rightSquare with
  | (some endTok, p) => (.ok (.arrayInline [] (span.union endTok.span)), p)
  | (none, p) =>
    pbind (parse_spread_or_expression fuel p) fun first p =>
      match p.eat .semicolon with
      | (some _, p) =>
        (match parse_array_dimensions p with
         | (.error _, p) => (.error (.unableToParseArrayDimensions span), p)
         | (.ok dimensions, p) =>
           pbind (p.expect .rightSquare) fun end_span p =>
             match first with
             | .spread fexp => (.error (.spreadInArrayInit (span.union fexp.span)), p)
             | .expression x => (.ok (.arrayInit x dimensions (span.union end_span)), p))
      | (none, p) => parse_array_elements fuel [first] span p
termination_by structural fuel

/-- The inline-array element loop (lines 468-491): stop at `]`; while only
the first element has been collected, require an explicit comma and permit
`]` right after it; otherwise collect further elements comma-separated up
to `]`. -/
def parse_array_elements (fuel : Nat) (elements : List SpreadOrExpression) (span : Span)
    (p : ParserContext) : PResult Expression :=
match fuel with
| 0 => (.error .outOfFuel, p)
| fuel + 1 =>
  match p.eat .rightSquare with
  | (some endTok, p) => (.ok (.arrayInline elements (span.union endTok.span)), p)
  | (none, p) =>
    if elements.length = 1 then
      pbind (p.expect .comma) fun _ p =>
        match p.eat .rightSquare with
        | (some endTok, p) => (.ok (.arrayInline elements (span.union endTok.span)), p)
        | (none, p) => parse_array_elements_push fuel elements span p
    else parse_array_elements_push fuel elements span p
termination_by structural fuel

/-- The tail of one inline-array loop iteration (lines 482-486): parse one
spread-or-expression element; continue on a comma, otherwise require `]`
and finish. -/
def parse_array_elements_push (fuel : Nat) (elements : List SpreadOrExpression) (span : Span)
    (p : ParserContext) : PResult Expression :=
match fuel with
| 0 => (.error .outOfFuel, p)
| fuel + 1 =>
  pbind (parse_spread_or_expression fuel p) fun el p =>
    match p.eat .comma with
    | (some _, p) => parse_array_elements fuel (elements ++ [el]) span p
    | (none, p) =>
      pbind (p.expect .rightSquare) fun end_span p =>
        (.ok (.arrayInline (elements ++ [el]) (span.union end_span)), p)
termination_by structural fuel

/-- parse_primary_expression, lines 504-580: consume one token and dispatch
on it; integer literals may take an adjacent type suffix; `(` and `[`
delegate to the tuple and array parsers; identifiers and the upper-case
Self pseudo-identifier start a circuit init when the next token is an
opening brace and circuit construction is not disallowed; the lower-case
self and input pseudo-identifiers map directly to identifiers; any type
keyword token maps to an identifier named by that keyword; anything else is
an unexpected-token error. -/
def parse_primary_expression (fuel : Nat) (p : ParserContext) : PResult Expression :=
match fuel with
| 0 => (.error .outOfFuel, p)
| fuel + 1 =>
  pbind p.expect_any fun st p =>
    match st.token with
    | .int value =>
      (match p.eat_any INT_TYPES with
       | (some ⟨.field, type_span⟩, p) =>
         (match assert_no_whitespace st.span type_span value "field" with
          | .error e => (.error e, p)
          | .ok _ => (.ok (.value (.field value (st.span.union type_span))), p))
       | (some ⟨.group, type_span⟩, p) =>
         (match assert_no_whitespace st.span type_span value "group" with
          | .error e => (.error e, p)
          | .ok _ => (.ok (.value (.group (.single value (st.span.union type_span)))), p))
       | (some ⟨tok, type_span⟩, p) =>
         (match assert_no_whitespace st.span type_span value tok.text with
          | .error e => (.error e, p)
          | .ok _ =>
            match token_to_int_type tok with
            | some ity => (.ok (.value (.integer ity value (st.span.union type_span))), p)
            | none => (.error (.unexpected tok.text "internal: unknown int type" type_span), p))
       | (none, p) => (.ok (.value (.implicit value st.span)), p))
    | .true_ => (.ok (.value (.boolean "true" st.span)), p)
    | .false_ => (.ok (.value (.boolean "false" st.span)), p)
    | .addressLit value => (.ok (.value (.address value st.span)), p)
    | .charLit value => (.ok (.value (.char value st.span)), p)
    | .stringLit value => (.ok (.value (.string value st.span)), p)
    | .leftParen => parse_tuple_expression fuel st.span p
    | .leftSquare => parse_array_expression fuel st.span p
    | .ident name =>
      if !p.disallow_circuit_construction && p.peek_token == some Token.leftCurly then
        parse_circuit_expression fuel name st.span p
      else (.ok (.identifier name st.span), p)
    | .bigSelf =>
      if !p.disallow_circuit_construction && p.peek_token == some Token.leftCurly then
        parse_circuit_expression fuel "Self" st.span p
      else (.ok (.identifier "Self" st.span), p)
    | .littleSelf => (.ok (.identifier "self" st.span), p)
    | .input => (.ok (.identifier "input" st.span), p)
    | t =>
      if TYPE_TOKENS.contains t then
        (.ok (.identifier ((t.keyword_to_symbol).getD "") st.span), p)
      else (.error (.unexpected t.text "expression" st.span), p)
termination_by structural fuel

end

/-- The local span condition of the spec's span-composition invariant: at a
binary node, the stored span is the union of the children's spans (no
condition at other nodes). -/
def binary_span_check : Expression → Bool
  | .binary _ l r sp => sp == l.span.union r.span
  | _ => true

/-- The local tuple-arity condition: a tuple-init node never holds exactly
one element (a parenthesized single expression is returned unwrapped). -/
def tuple_len_check : Expression → Bool
  | .tupleInit elements _ => elements.length != 1
  | _ => true

mutual
/-- `allOk q e`: the local check `q` holds at every node of the expression
tree `e`. -/
def allOk (q : Expression → Bool) : Expression → Bool
  | .identifier n sp => q (.identifier n sp)
  | .value v => q (.value v)
  | .binary op l r sp => q (.binary op l r sp) && allOk q l && allOk q r
  | .unary op i sp => q (.unary op i sp) && allOk q i
  | .ternary c t f sp => q (.ternary c t f sp) && allOk q c && allOk q t && allOk q f
  | .cast i ty sp => q (.cast i ty sp) && allOk q i
  | .call f args sp => q (.call f args sp) && allOk q f && allOkList q args
  | .arrayAccess a i sp => q (.arrayAccess a i sp) && allOk q a && allOk q i
  | .arrayRangeAccess a l r sp =>
    q (.arrayRangeAccess a l r sp) && allOk q a && allOkOpt q l && allOkOpt q r
  | .memberAccess i n sp => q (.memberAccess i n sp) && allOk q i
  | .tupleAccess t n sp => q (.tupleAccess t n sp) && allOk q t
  | .staticAccess i n sp => q (.staticAccess i n sp) && allOk q i
  | .circuitInit n nsp ms sp => q (.circuitInit n nsp ms sp) && allOkMembers q ms
  | .tupleInit els sp => q (.tupleInit els sp) && allOkList q els
  | .arrayInline els sp => q (.arrayInline els sp) && allOkSpreads q els
  | .arrayInit el dims sp => q (.arrayInit el dims sp) && allOk q el
  | .err sp => q (.err sp)
/-- `allOk` over a list of child expressions. -/
def allOkList (q : Expression → Bool) : List Expression → Bool
  | [] => true
  | e :: es => allOk q e && allOkList q es
/-- `allOk` over an optional child expression. -/
def allOkOpt (q : Expression → Bool) : Option Expression → Bool
  | none => true
  | some e => allOk q e
/-- `allOk` over a list of spread-or-expression elements. -/
def allOkSpreads (q : Expression → Bool) : List SpreadOrExpression → Bool
  | [] => true
  | .spread e :: es => allOk q e && allOkSpreads q es
  | .expression e :: es => allOk q e && allOkSpreads q es
/-- `allOk` over circuit-init members (their optional values). -/
def allOkMembers (q : Expression → Bool) : List CircuitVariableInitializer → Bool
  | [] => true
  | .mk _ _ oe :: ms => allOkOpt q oe && allOkMembers q ms
end

/-- Every binary node of the tree has the span-union property (claim C9's
predicate). -/
def spansOkBin (e : Expression) : Bool := allOk binary_span_check e

/-- No tuple-init node of the tree has exactly one element. -/
def tupleLenOk (e : Expression) : Bool := allOk tuple_len_check e

/-- Whether an expression is a circuit-init node. -/
def Expression.isCircuitInit : Expression → Bool
  | .circuitInit .. => true
  | _ => false

namespace Ast

/-- An identifier node of the AST crate. -/
structure Identifier where
  name : String
deriving DecidableEq, Repr

/-- A literal node; its payload carries no child expressions, so it is
collapsed to its text. -/
structure ValueExpression where
  literal : String
deriving DecidableEq, Repr

/-- The Err placeholder node recorded where parsing failed locally. -/
structure ErrExpression where
  note : String
deriving DecidableEq, Repr

mutual
/-- The expression type of the AST crate as witnessed by the exhaustive
match of visit_expression (visitor.rs lines 28-36): exactly the variants
Identifier, Value, Binary, Unary, Ternary, Call and Err.  The payload
shapes of the recursive variants follow the spec's data model; in
particular a Call node is Call(function_expr, ordered argument list). -/
inductive Expression where
  | identifier (i : Identifier)
  | value (v : ValueExpression)
  | binary (b : BinaryExpression)
  | unary (u : UnaryExpression)
  | ternary (t : TernaryExpression)
  | call (c : CallExpression)
  | err (e : ErrExpression)
/-- Binary(op, left, right). -/
inductive BinaryExpression where
  | mk (op : String) (left : Expression) (right : Expression)
/-- Unary(op, inner). -/
inductive UnaryExpression where
  | mk (op : String) (inner : Expression)
/-- Ternary(condition, if_true, if_false). -/
inductive TernaryExpression where
  | mk (condition : Expression) (if_true : Expression) (if_false : Expression)
/-- Call(function_expr, ordered argument list), per the spec's data
model. -/
inductive CallExpression where
  | mk (function : Expression) (arguments : List Expression)
end

mutual
/-- visit_expression (visitor.rs lines 27-37), instrumented with a visit
trace: dispatch on the node's variant to the dedicated per-variant default
handler.  The first component is the handler's returned optional value; the
second records every (node, context) pair visit_expression is invoked on,
in invocation order. -/
def visit_expression {C O : Type} (e : Expression) (a : C) :
    Option O × List (Expression × C) :=
  let d : Option O × List (Expression × C) :=
    match e with
    | .identifier i => visit_identifier i a
    | .value v => visit_value v a
    | .binary b => visit_binary b a
    | .unary u => visit_unary u a
    | .ternary t => visit_ternary t a
    | .call c => visit_call c a
    | .err er => visit_err er a
  (d.1, (e, a) :: d.2)
/-- Default visit_identifier (lines 39-45): no recursion, returns None. -/
def visit_identifier {C O : Type} (_i : Identifier) (_a : C) :
    Option O × List (Expression × C) :=
  (none, [])
/-- Default visit_value (lines 47-53): no recursion, returns None. -/
def visit_value {C O : Type} (_v : ValueExpression) (_a : C) :
    Option O × List (Expression × C) :=
  (none, [])
/-- Default visit_binary (lines 55-63): visit left then right with the same
context, return None. -/
def visit_binary {C O : Type} (input : BinaryExpression) (a : C) :
    Option O × List (Expression × C) :=
  match input with
  | .mk _ l r =>
    (none, (visit_expression (O := O) l a).2 ++ (visit_expression (O := O) r a).2)
/-- Default visit_unary (lines 65-68): visit the inner expression with the
same context, return None. -/
def visit_unary {C O : Type} (input : UnaryExpression) (a : C) :
    Option O × List (Expression × C) :=
  match input with
  | .mk _ i => (none, (visit_expression (O := O) i a).2)
/-- Default visit_ternary (lines 70-79): visit condition, if_true, if_false
with the same context, return None. -/
def visit_ternary {C O : Type} (input : TernaryExpression) (a : C) :
    Option O × List (Expression × C) :=
  match input with
  | .mk c t f =>
    (none, (visit_expression (O := O) c a).2 ++ (visit_expression (O := O) t a).2
      ++ (visit_expression (O := O) f a).2)
/-- Default visit_call (lines 81-86): visit each argument with the same
context (the function expression is not visited), return None. -/
def visit_call {C O : Type} (input : CallExpression) (a : C) :
    Option O × List (Expression × C) :=
  match input with
  | .mk _f args => (none, visit_call_arguments (O := O) args a)
/-- The arguments.iter().for_each of visit_call. -/
def visit_call_arguments {C O : Type} (args : List Expression) (a : C) :
    List (Expression × C) :=
  match args with
  | [] => []
  | e :: es => (visit_expression (O := O) e a).2 ++ visit_call_arguments (O := O) es a
/-- Default visit_err (lines 88-90): no recursion, returns None. -/
def visit_err {C O : Type} (_e : ErrExpression) (_a : C) :
    Option O × List (Expression × C) :=
  (none, [])
end

mutual
/-- The node sequence the default handlers traverse, in pre-order: each
node followed by the nodes of the children its default handler recurses
into; a Call's default handler recurses into its arguments only. -/
def default_visited : Expression → List Expression
  | .identifier i => [.identifier i]
  | .value v => [.value v]
  | .binary (.mk op l r) =>
    .binary (.mk op l r) :: (default_visited l ++ default_visited r)
  | .unary (.mk op i) => .unary (.mk op i) :: default_visited i
  | .ternary (.mk c t f) =>
    .ternary (.mk c t f) :: (default_visited c ++ default_visited t ++ default_visited f)
  | .call (.mk f args) => .call (.mk f args) :: default_visited_list args
  | .err e => [.err e]
/-- default_visited over a list of nodes. -/
def default_visited_list : List Expression → List Expression
  | [] => []
  | e :: es => default_visited e ++ default_visited_list es
end

/-- Modelled from the spec: the child expressions of each expression node
per the data model, where a Call node's children are its function
expression followed by its arguments. -/
def child_expressions : Expression → List Expression
  | .identifier _ => []
  | .value _ => []
  | .binary (.mk _ l r) => [l, r]
  | .unary (.mk _ i) => [i]
  | .ternary (.mk c t f) => [c, t, f]
  | .call (.mk f args) => f :: args
  | .err _ => []

/-- A console format string: its interpolation arguments are the only
child expressions the visitor touches. -/
structure FormatString where
  parameters : List Expression

/-- ConsoleFunction as dispatched by visit_console (lines 132-142). -/
inductive ConsoleFunction where
  | assert (e : Expression)
  | error (f : FormatString)
  | log (f : FormatString)

mutual
/-- The statement variants dispatched by visit_statement (visitor.rs lines
94-104). -/
inductive Statement where
  | ret (s : ReturnStatement)
  | definition (s : DefinitionStatement)
  | assign (s : AssignStatement)
  | conditional (s : ConditionalStatement)
  | iteration (s : IterationStatement)
  | console (s : ConsoleStatement)
  | block (s : Block)
/-- Return statement: one expression. -/
inductive ReturnStatement where
  | mk (expression : Expression)
/-- Definition statement: the bound value. -/
inductive DefinitionStatement where
  | mk (value : Expression)
/-- Assign statement: the assigned value. -/
inductive AssignStatement where
  | mk (value : Expression)
/-- Conditional statement: condition, body block, optional chained next
statement (else / else-if). -/
inductive ConditionalStatement where
  | mk (condition : Expression) (block : Block) (next : Option Statement)
/-- Iteration statement: start and stop bounds and the body block. -/
inductive IterationStatement where
  | mk (start : Expression) (stop : Expression) (block : Block)
/-- Console statement. -/
inductive ConsoleStatement where
  | mk (function : ConsoleFunction)
/-- A block: an ordered statement sequence. -/
inductive Block where
  | mk (statements : List Statement)
end

/-- A function owns one block (visitor.rs line 157-159). -/
structure Function where
  block : Block

/-- A program: its function mapping, iterated in order by
visit_program. -/
structure Program where
  functions : List (String × Function)

/-- Modelled from the spec: the diagnostics sink (the Handler of the
leo_errors crate, an external collaborator); it accumulates recorded
errors. -/
structure Handler where
  errors : List String
deriving DecidableEq, Repr

/-- Record one diagnostic. -/
def Handler.emit_err (h : Handler) (e : String) : Handler :=
  { errors := h.errors ++ [e] }

/-- Modelled from the spec: the sink's query used once after traversal
completes ("last recorded error, if any"); an error makes the query fail,
an empty record succeeds. -/
def Handler.last_err (h : Handler) : Except String Unit :=
  match h.errors.getLast? with
  | some e => .error e
  | none => .ok ()

mutual
/-- Modelled from the spec: the type checker's expression visiting (its
check_expressions module is not among the shown sources).  An arbitrary
per-node check may record one diagnostic at each visited expression node;
recursion into children follows the default structural recursion of
visitor.rs and never aborts (batch diagnostics, spec section 7). -/
def tc_visit_expression (check : Expression → Option String) (e : Expression)
    (h : Handler) : Handler :=
  let h := match check e with
    | some msg => h.emit_err msg
    | none => h
  match e with
  | .identifier _ => h
  | .value _ => h
  | .binary (.mk _ l r) => tc_visit_expression check r (tc_visit_expression check l h)
  | .unary (.mk _ i) => tc_visit_expression check i h
  | .ternary (.mk c t f) =>
    tc_visit_expression check f (tc_visit_expression check t (tc_visit_expression check c h))
  | .call (.mk _f args) => tc_visit_expr_list check args h
  | .err _ => h
/-- tc_visit_expression over an argument or parameter list. -/
def tc_visit_expr_list (check : Expression → Option String) (es : List Expression)
    (h : Handler) : Handler :=
  match es with
  | [] => h
  | e :: rest => tc_visit_expr_list check rest (tc_visit_expression check e h)
end

mutual
/-- visit_statement (visitor.rs lines 94-104) with the default per-variant
bodies (lines 106-146), threading the diagnostics sink. -/
def tc_visit_statement (check : Expression → Option String) (s : Statement)
    (h : Handler) : Handler :=
  match s with
  | .ret (.mk e) => tc_visit_expression check e h
  | .definition (.mk v) => tc_visit_expression check v h
  | .assign (.mk v) => tc_visit_expression check v h
  | .conditional (.mk cnd blk nxt) =>
    let h := tc_visit_expression check cnd h
    let h := tc_visit_block check blk h
    (match nxt with
     | some s' => tc_visit_statement check s' h
     | none => h)
  | .iteration (.mk start stop blk) =>
    tc_visit_block check blk (tc_visit_expression check stop (tc_visit_expression check start h))
  | .console (.mk (.assert e)) => tc_visit_expression check e h
  | .console (.mk (.error f)) => tc_visit_expr_list check f.parameters h
  | .console (.mk (.log f)) => tc_visit_expr_list check f.parameters h
  | .block b => tc_visit_block check b h
/-- visit_block (lines 144-146): visit each statement in order. -/
def tc_visit_block (check : Expression → Option String) (b : Block) (h : Handler) : Handler :=
  match b with
  | .mk stmts => tc_visit_stmt_list check stmts h
/-- The statements.iter().for_each of visit_block. -/
def tc_visit_stmt_list (check : Expression → Option String) (ss : List Statement)
    (h : Handler) : Handler :=
  match ss with
  | [] => h
  | s :: rest => tc_visit_stmt_list check rest (tc_visit_statement check s h)
end

/-- visit_function (lines 157-159): visit the function's block. -/
def tc_visit_function (check : Expression → Option String) (f : Function)
    (h : Handler) : Handler :=
  tc_visit_block check f.block h

/-- visit_program (lines 150-155): visit every function, in the mapping's
order. -/
def tc_visit_program (check : Expression → Option String) (prog : Program)
    (h : Handler) : Handler :=
  prog.functions.foldl (fun h nf => tc_visit_function check nf.2 h) h

/-- do_pass from type_checker/mod.rs lines 40-46: construct the checker
with a fresh diagnostics sink, visit the whole program, then query the
sink's last recorded error; the query's failure is the pass's failure,
otherwise the pass returns success. -/
def do_pass (check : Expression → Option String) (ast : Program) : Except String Unit :=
  let handler := tc_visit_program check ast (Handler.mk [])
  match handler.last_err with
  | .error e => .error e
  | .ok _ => .ok ()

mutual
/-- The diagnostics a check records on one expression tree, defined
directly by structural recursion (used to state that the traversal
accumulates over the entire tree and never aborts). -/
def expression_diags (check : Expression → Option String) : Expression → List String
  | .identifier i => (check (.identifier i)).toList
  | .value v => (check (.value v)).toList
  | .binary (.mk op l r) =>
    (check (.binary (.mk op l r))).toList ++ expression_diags check l ++ expression_diags check r
  | .unary (.mk op i) => (check (.unary (.mk op i))).toList ++ expression_diags check i
  | .ternary (.mk c t f) =>
    (check (.ternary (.mk c t f))).toList ++ expression_diags check c
      ++ expression_diags check t ++ expression_diags check f
  | .call (.mk f args) => (check (.call (.mk f args))).toList ++ expr_list_diags check args
  | .err e => (check (.err e)).toList
/-- expression_diags over a list. -/
def expr_list_diags (check : Expression → Option String) : List Expression → List String
  | [] => []
  | e :: es => expression_diags check e ++ expr_list_diags check es
end

mutual
/-- The diagnostics recorded on one statement tree. -/
def statement_diags (check : Expression → Option String) : Statement → List String
  | .ret (.mk e) => expression_diags check e
  | .definition (.mk v) => expression_diags check v
  | .assign (.mk v) => expression_diags check v
  | .conditional (.mk cnd blk nxt) =>
    expression_diags check cnd ++ block_diags check blk
      ++ (match nxt with
          | some s' => statement_diags check s'
          | none => [])
  | .iteration (.mk start stop blk) =>
    expression_diags check start ++ expression_diags check stop ++ block_diags check blk
  | .console (.mk (.assert e)) => expression_diags check e
  | .console (.mk (.error f)) => expr_list_diags check f.parameters
  | .console (.mk (.log f)) => expr_list_diags check f.parameters
  | .block b => block_diags check b
/-- The diagnostics recorded on one block. -/
def block_diags (check : Expression → Option String) : Block → List String
  | .mk stmts => stmt_list_diags check stmts
/-- block_diags over a statement list. -/
def stmt_list_diags (check : Expression → Option String) : List Statement → List String
  | [] => []
  | s :: ss => statement_diags check s ++ stmt_list_diags check ss
end

/-- The diagnostics recorded on a whole program. -/
def program_diags (check : Expression → Option String) (prog : Program) : List String :=
  prog.functions.foldl (fun acc nf => acc ++ block_diags check nf.2.block) []

end Ast

/-! ## Concrete token streams used by the claim theorems and witnesses -/

/-- The token stream of `1 - 2 - 3`. -/
def sub_chain_tokens : List SpannedToken :=
  [⟨.int "1", ⟨0,1⟩⟩, ⟨.minus, ⟨2,3⟩⟩, ⟨.int "2", ⟨4,5⟩⟩, ⟨.minus, ⟨6,7⟩⟩, ⟨.int "3", ⟨8,9⟩⟩]

/-- The token stream of `2 ^ 3 ^ 2`. -/
def pow_chain_tokens : List SpannedToken :=
  [⟨.int "2", ⟨0,1⟩⟩, ⟨.exp, ⟨2,3⟩⟩, ⟨.int "3", ⟨4,5⟩⟩, ⟨.exp, ⟨6,7⟩⟩, ⟨.int "2", ⟨8,9⟩⟩]

/-- The token stream of `a ? b : c ? d : e`. -/
def ternary_chain_tokens : List SpannedToken :=
  [⟨.ident "a", ⟨0,1⟩⟩, ⟨.question, ⟨2,3⟩⟩, ⟨.ident "b", ⟨4,5⟩⟩, ⟨.colon, ⟨6,7⟩⟩,
   ⟨.ident "c", ⟨8,9⟩⟩, ⟨.question, ⟨10,11⟩⟩, ⟨.ident "d", ⟨12,13⟩⟩, ⟨.colon, ⟨14,15⟩⟩,
   ⟨.ident "e", ⟨16,17⟩⟩]

/-- The token stream of `a < b < c`. -/
def lt_chain_tokens : List SpannedToken :=
  [⟨.ident "a", ⟨0,1⟩⟩, ⟨.lt, ⟨2,3⟩⟩, ⟨.ident "b", ⟨4,5⟩⟩, ⟨.lt, ⟨6,7⟩⟩, ⟨.ident "c", ⟨8,9⟩⟩]

/-! ## C2 -/

/-- C2: for every prior value of the disallow_circuit_construction flag,
after parse_expression returns (with an expression or an error alike) the
flag equals its value from before the call, and the nested parse performed
by the call runs on the state with the flag cleared, so circuit-init
expressions are permitted inside it even when the caller had set the
flag. -/
theorem C2_parse_expression_flag_discipline :
    (∀ (fuel : Nat) (p : ParserContext),
      (parse_expression fuel p).2.disallow_circuit_construction
        = p.disallow_circuit_construction)
    ∧ (∀ (fuel : Nat) (p : ParserContext),
      parse_expression (fuel + 1) p =
        ((parse_conditional_expression fuel
            { p with disallow_circuit_construction := false }).1,
         { (parse_conditional_expression fuel
              { p with disallow_circuit_construction := false }).2
             with disallow_circuit_construction := p.disallow_circuit_construction })) := by
  constructor
  · intro fuel p
    match fuel with
    | 0 => rfl
    | fuel + 1 => rfl
  · intro fuel p
    rfl

/-! ## C3 -/

/-- C3: on already-lexed token sequences, subtraction folds left while
power and the ternary else-branch nest right: `1 - 2 - 3` parses to
Sub(Sub(1,2),3), `2 ^ 3 ^ 2` parses to Pow(2, Pow(3,2)), and
`a ? b : c ? d : e` parses to Ternary(a, b, Ternary(c, d, e)). -/
theorem C3_associativity_sub_pow_ternary :
    parse_expression 64 ⟨sub_chain_tokens, false⟩ =
      (.ok (.binary .sub
              (.binary .sub (.value (.implicit "1" ⟨0,1⟩)) (.value (.implicit "2" ⟨4,5⟩)) ⟨0,5⟩)
              (.value (.implicit "3" ⟨8,9⟩)) ⟨0,9⟩),
       ⟨[], false⟩)
    ∧ parse_expression 64 ⟨pow_chain_tokens, false⟩ =
      (.ok (.binary .pow (.value (.implicit "2" ⟨0,1⟩))
              (.binary .pow (.value (.implicit "3" ⟨4,5⟩)) (.value (.implicit "2" ⟨8,9⟩)) ⟨4,9⟩)
              ⟨0,9⟩),
       ⟨[], false⟩)
    ∧ parse_expression 64 ⟨ternary_chain_tokens, false⟩ =
      (.ok (.ternary (.identifier "a" ⟨0,1⟩) (.identifier "b" ⟨4,5⟩)
              (.ternary (.identifier "c" ⟨8,9⟩) (.identifier "d" ⟨12,13⟩)
                 (.identifier "e" ⟨16,17⟩) ⟨8,17⟩)
              ⟨0,17⟩),
       ⟨[], false⟩) :=
  ⟨rfl, rfl, rfl⟩

/-! ## C4 -/

/-- C4: a chain of ordering comparisons such as `a < b < c` is accepted by
parse_ordering_expression and left-folds through repeated single
applications, producing Lt(Lt(a,b),c); in general each further ordering
operator eaten by the chain loop wraps the previously accumulated
expression as the left operand of a new binary node (stated for each of the
four ordering operators). -/
theorem C4_ordering_chain_left_fold :
    parse_expression 64 ⟨lt_chain_tokens, false⟩ =
      (.ok (.binary .lt
              (.binary .lt (.identifier "a" ⟨0,1⟩) (.identifier "b" ⟨4,5⟩) ⟨0,5⟩)
              (.identifier "c" ⟨8,9⟩) ⟨0,9⟩),
       ⟨[], false⟩)
    ∧ (∀ (fuel : Nat) (expr : Expression) (p p2 p3 : ParserContext) (sp : Span) (r : Expression),
        p.eat_any [.lt, .ltEq, .gt, .gtEq] = (some ⟨.lt, sp⟩, p2) →
        parse_additive_expression fuel p2 = (.ok r, p3) →
        parse_ordering_loop (fuel + 1) expr p
          = parse_ordering_loop fuel (bin_expr expr r .lt) p3)
    ∧ (∀ (fuel : Nat) (expr : Expression) (p p2 p3 : ParserContext) (sp : Span) (r : Expression),
        p.eat_any [.lt, .ltEq, .gt, .gtEq] = (some ⟨.ltEq, sp⟩, p2) →
        parse_additive_expression fuel p2 = (.ok r, p3) →
        parse_ordering_loop (fuel + 1) expr p
          = parse_ordering_loop fuel (bin_expr expr r .le) p3)
    ∧ (∀ (fuel : Nat) (expr : Expression) (p p2 p3 : ParserContext) (sp : Span) (r : Expression),
        p.eat_any [.lt, .ltEq, .gt, .gtEq] = (some ⟨.gt, sp⟩, p2) →
        parse_additive_expression fuel p2 = (.ok r, p3) →
        parse_ordering_loop (fuel + 1) expr p
          = parse_ordering_loop fuel (bin_expr expr r .gt) p3)
    ∧ (∀ (fuel : Nat) (expr : Expression) (p p2 p3 : ParserContext) (sp : Span) (r : Expression),
        p.eat_any [.lt, .ltEq, .gt, .gtEq] = (some ⟨.gtEq, sp⟩, p2) →
        parse_additive_expression fuel p2 = (.ok r, p3) →
        parse_ordering_loop (fuel + 1) expr p
          = parse_ordering_loop fuel (bin_expr expr r .ge) p3) := by
  refine ⟨rfl, ?_, ?_, ?_, ?_⟩ <;>
    · intro fuel expr p p2 p3 sp r h1 h2
      simp [parse_ordering_loop, h1, h2, pbind]

/-- Witness for C4: the general chain-step conjuncts applied on the state
reached after `a < b` in `a < b < c`, together with the concrete chain
fact. -/
theorem C4_ordering_chain_left_fold_witness :
    parse_ordering_loop 60
        (bin_expr (.identifier "a" ⟨0,1⟩) (.identifier "b" ⟨4,5⟩) .lt)
        ⟨[⟨.lt, ⟨6,7⟩⟩, ⟨.ident "c", ⟨8,9⟩⟩], false⟩
      = parse_ordering_loop 59
          (bin_expr (bin_expr (.identifier "a" ⟨0,1⟩) (.identifier "b" ⟨4,5⟩) .lt)
             (.identifier "c" ⟨8,9⟩) .lt)
          ⟨[], false⟩ :=
  C4_ordering_chain_left_fold.2.1 59
    (bin_expr (.identifier "a" ⟨0,1⟩) (.identifier "b" ⟨4,5⟩) .lt)
    ⟨[⟨.lt, ⟨6,7⟩⟩, ⟨.ident "c", ⟨8,9⟩⟩], false⟩
    ⟨[⟨.ident "c", ⟨8,9⟩⟩], false⟩ ⟨[], false⟩ ⟨6,7⟩
    (.identifier "c" ⟨8,9⟩) rfl rfl

/-! ## C10 -/

/-- C10: at primary-expression position a type keyword token (any member of
TYPE_TOKENS) is accepted rather than rejected, and parses to an Identifier
expression named by that keyword's symbol, consuming exactly that token. -/
theorem C10_type_keyword_is_identifier :
    ∀ (t : Token) (sp : Span) (rest : List SpannedToken) (dc : Bool) (fuel : Nat),
      t ∈ TYPE_TOKENS →
      parse_primary_expression (fuel + 1) ⟨⟨t, sp⟩ :: rest, dc⟩ =
        (.ok (.identifier ((t.keyword_to_symbol).getD "") sp), ⟨rest, dc⟩) := by
  intro t sp rest dc fuel ht
  fin_cases ht <;> rfl

/-- Witness for C10: the field type keyword at primary position parses to
the identifier `field`. -/
theorem C10_type_keyword_is_identifier_witness :
    Token.field ∈ TYPE_TOKENS
    ∧ parse_primary_expression 64 ⟨[⟨.field, ⟨0,5⟩⟩], true⟩ =
        (.ok (.identifier ((Token.field.keyword_to_symbol).getD "") ⟨0,5⟩), ⟨[], true⟩) :=
  ⟨by decide, C10_type_keyword_is_identifier .field ⟨0,5⟩ [] true 63 (by decide)⟩

/-! ## C6 -/

/-- C6 counterexample: with circuit construction allowed, the lower-case
self pseudo-identifier immediately followed by an opening brace does NOT
parse as a circuit-init expression as the claim states; the parser returns
the plain identifier `self` and leaves the brace unconsumed. -/
theorem C6_little_self_counterexample :
    parse_primary_expression 64
        ⟨[⟨.littleSelf, ⟨0,4⟩⟩, ⟨.leftCurly, ⟨5,6⟩⟩, ⟨.rightCurly, ⟨6,7⟩⟩], false⟩
      = (.ok (.identifier "self" ⟨0,4⟩),
         ⟨[⟨.leftCurly, ⟨5,6⟩⟩, ⟨.rightCurly, ⟨6,7⟩⟩], false⟩)
    ∧ (Expression.identifier "self" ⟨0,4⟩).isCircuitInit = false :=
  ⟨rfl, rfl⟩

/-- C6 amended: at primary position, an identifier or the upper-case Self
pseudo-identifier immediately followed by an opening brace parses as a
circuit-init expression when the circuit-construction-disallowed flag is
clear, and yields a plain Identifier with the brace left unconsumed when
the flag is set; the lower-case self and input pseudo-identifiers always
yield a plain Identifier with a following brace left unconsumed, whatever
the flag.  (Stated on an empty-membered circuit body; the member list is
orthogonal to the dispatch being claimed.) -/
theorem C6_circuit_init_dispatch :
    (∀ (fuel : Nat) (name : String) (sp1 sp2 sp3 : Span) (rest : List SpannedToken),
      parse_primary_expression (fuel + 3)
          ⟨⟨.ident name, sp1⟩ :: ⟨.leftCurly, sp2⟩ :: ⟨.rightCurly, sp3⟩ :: rest, false⟩
        = (.ok (.circuitInit name sp1 [] (sp1.union (sp2.union sp3))), ⟨rest, false⟩))
    ∧ (∀ (fuel : Nat) (name : String) (sp1 sp2 sp3 : Span) (rest : List SpannedToken),
      parse_primary_expression (fuel + 3)
          ⟨⟨.ident name, sp1⟩ :: ⟨.leftCurly, sp2⟩ :: ⟨.rightCurly, sp3⟩ :: rest, true⟩
        = (.ok (.identifier name sp1),
           ⟨⟨.leftCurly, sp2⟩ :: ⟨.rightCurly, sp3⟩ :: rest, true⟩))
    ∧ (∀ (fuel : Nat) (sp1 sp2 sp3 : Span) (rest : List SpannedToken),
      parse_primary_expression (fuel + 3)
          ⟨⟨.bigSelf, sp1⟩ :: ⟨.leftCurly, sp2⟩ :: ⟨.rightCurly, sp3⟩ :: rest, false⟩
        = (.ok (.circuitInit "Self" sp1 [] (sp1.union (sp2.union sp3))), ⟨rest, false⟩))
    ∧ (∀ (fuel : Nat) (sp1 sp2 sp3 : Span) (rest : List SpannedToken),
      parse_primary_expression (fuel + 3)
          ⟨⟨.bigSelf, sp1⟩ :: ⟨.leftCurly, sp2⟩ :: ⟨.rightCurly, sp3⟩ :: rest, true⟩
        = (.ok (.identifier "Self" sp1),
           ⟨⟨.leftCurly, sp2⟩ :: ⟨.rightCurly, sp3⟩ :: rest, true⟩))
    ∧ (∀ (fuel : Nat) (dc : Bool) (sp1 : Span) (rest : List SpannedToken),
      parse_primary_expression (fuel + 1) ⟨⟨.littleSelf, sp1⟩ :: rest, dc⟩
        = (.ok (.identifier "self" sp1), ⟨rest, dc⟩))
    ∧ (∀ (fuel : Nat) (dc : Bool) (sp1 : Span) (rest : List SpannedToken),
      parse_primary_expression (fuel + 1) ⟨⟨.input, sp1⟩ :: rest, dc⟩
        = (.ok (.identifier "input" sp1), ⟨rest, dc⟩)) :=
  ⟨fun _ _ _ _ _ _ => rfl, fun _ _ _ _ _ _ => rfl, fun _ _ _ _ _ => rfl,
   fun _ _ _ _ _ => rfl, fun _ _ _ _ => rfl, fun _ _ _ _ => rfl⟩

/-! ## C7 -/

/-- C7 counterexample: a comma immediately followed by the closing
parenthesis (a trailing comma) is NOT rejected as the claim states: the
token stream of `f(a,)` parses successfully to a one-argument call. -/
theorem C7_trailing_comma_counterexample :
    parse_expression 64
        ⟨[⟨.ident "f", ⟨0,1⟩⟩, ⟨.leftParen, ⟨1,2⟩⟩, ⟨.ident "a", ⟨2,3⟩⟩,
          ⟨.comma, ⟨3,4⟩⟩, ⟨.rightParen, ⟨4,5⟩⟩], false⟩
      = (.ok (.call (.identifier "f" ⟨0,1⟩) [.identifier "a" ⟨2,3⟩] ⟨0,5⟩), ⟨[], false⟩) :=
  rfl

/-- C7 amended: in postfix call parsing the arguments are a comma-separated
list terminated by the closing parenthesis: an empty pair of parentheses
yields a zero-argument call, each argument parsed before a comma is
appended in order at the end of the accumulated list, an argument not
followed by a comma must be followed by the closing parenthesis, and a
trailing comma before the closing parenthesis is also accepted (the loop
re-checks for the closing parenthesis first), yielding the same argument
list. -/
theorem C7_call_argument_list :
    (∀ (fuel : Nat) (args : List Expression) (p p2 : ParserContext) (st : SpannedToken),
      p.eat .rightParen = (some st, p2) →
      parse_call_arguments (fuel + 1) args p = (.ok (args, st.span), p2))
    ∧ (∀ (fuel : Nat) (args : List Expression) (p p1 p2 p3 : ParserContext)
         (e : Expression) (st : SpannedToken),
      p.eat .rightParen = (none, p1) →
      parse_expression fuel p1 = (.ok e, p2) →
      p2.eat .comma = (some st, p3) →
      parse_call_arguments (fuel + 1) args p = parse_call_arguments fuel (args ++ [e]) p3)
    ∧ (∀ (fuel : Nat) (args : List Expression) (p p1 p2 p3 p4 : ParserContext)
         (e : Expression) (endsp : Span),
      p.eat .rightParen = (none, p1) →
      parse_expression fuel p1 = (.ok e, p2) →
      p2.eat .comma = (none, p3) →
      p3.expect .rightParen = (.ok endsp, p4) →
      parse_call_arguments (fuel + 1) args p = (.ok (args ++ [e], endsp), p4))
    ∧ parse_expression 64
        ⟨[⟨.ident "f", ⟨0,1⟩⟩, ⟨.leftParen, ⟨1,2⟩⟩, ⟨.rightParen, ⟨2,3⟩⟩], false⟩
      = (.ok (.call (.identifier "f" ⟨0,1⟩) [] ⟨0,3⟩), ⟨[], false⟩)
    ∧ parse_expression 64
        ⟨[⟨.ident "f", ⟨0,1⟩⟩, ⟨.leftParen, ⟨1,2⟩⟩, ⟨.ident "a", ⟨2,3⟩⟩, ⟨.comma, ⟨3,4⟩⟩,
          ⟨.ident "b", ⟨4,5⟩⟩, ⟨.rightParen, ⟨5,6⟩⟩], false⟩
      = (.ok (.call (.identifier "f" ⟨0,1⟩)
                [.identifier "a" ⟨2,3⟩, .identifier "b" ⟨4,5⟩] ⟨0,6⟩), ⟨[], false⟩) := by
  refine ⟨?_, ?_, ?_, rfl, rfl⟩
  · intro fuel args p p2 st h1
    simp [parse_call_arguments, h1]
  · intro fuel args p p1 p2 p3 e st h1 h2 h3
    simp [parse_call_arguments, h1, h2, h3, pbind]
  · intro fuel args p p1 p2 p3 p4 e endsp h1 h2 h3 h4
    simp [parse_call_arguments, h1, h2, h3, h4, pbind]

/-- Witness for C7: the three general conjuncts applied on the concrete
states reached while parsing the argument list of `f(a,)`. -/
theorem C7_call_argument_list_witness :
    parse_call_arguments 62 []
        ⟨[⟨.ident "a", ⟨2,3⟩⟩, ⟨.comma, ⟨3,4⟩⟩, ⟨.rightParen, ⟨4,5⟩⟩], false⟩
      = parse_call_arguments 61 [.identifier "a" ⟨2,3⟩] ⟨[⟨.rightParen, ⟨4,5⟩⟩], false⟩
    ∧ parse_call_arguments 61 [.identifier "a" ⟨2,3⟩] ⟨[⟨.rightParen, ⟨4,5⟩⟩], false⟩
      = (.ok ([.identifier "a" ⟨2,3⟩], ⟨4,5⟩), ⟨[], false⟩)
    ∧ parse_call_arguments 60 []
        ⟨[⟨.ident "a", ⟨2,3⟩⟩, ⟨.rightParen, ⟨4,5⟩⟩], false⟩
      = (.ok ([.identifier "a" ⟨2,3⟩], ⟨4,5⟩), ⟨[], false⟩) :=
  ⟨C7_call_argument_list.2.1 61 []
      ⟨[⟨.ident "a", ⟨2,3⟩⟩, ⟨.comma, ⟨3,4⟩⟩, ⟨.rightParen, ⟨4,5⟩⟩], false⟩
      ⟨[⟨.ident "a", ⟨2,3⟩⟩, ⟨.comma, ⟨3,4⟩⟩, ⟨.rightParen, ⟨4,5⟩⟩], false⟩
      ⟨[⟨.comma, ⟨3,4⟩⟩, ⟨.rightParen, ⟨4,5⟩⟩], false⟩
      ⟨[⟨.rightParen, ⟨4,5⟩⟩], false⟩
      (.identifier "a" ⟨2,3⟩) ⟨.comma, ⟨3,4⟩⟩ rfl rfl rfl,
   C7_call_argument_list.1 60 [.identifier "a" ⟨2,3⟩]
      ⟨[⟨.rightParen, ⟨4,5⟩⟩], false⟩ ⟨[], false⟩ ⟨.rightParen, ⟨4,5⟩⟩ rfl,
   C7_call_argument_list.2.2.1 59 []
      ⟨[⟨.ident "a", ⟨2,3⟩⟩, ⟨.rightParen, ⟨4,5⟩⟩], false⟩
      ⟨[⟨.ident "a", ⟨2,3⟩⟩, ⟨.rightParen, ⟨4,5⟩⟩], false⟩
      ⟨[⟨.rightParen, ⟨4,5⟩⟩], false⟩
      ⟨[⟨.rightParen, ⟨4,5⟩⟩], false⟩ ⟨[], false⟩
      (.identifier "a" ⟨2,3⟩) ⟨4,5⟩ rfl rfl rfl rfl⟩

/-! ## C5 (counterexample) -/

/-- C5 counterexample: an empty pair of parentheses parses to a TupleInit
node with zero elements, so not every TupleInit produced by the parser has
at least two elements. -/
theorem C5_empty_tuple_counterexample :
    parse_expression 64 ⟨[⟨.leftParen, ⟨0,1⟩⟩, ⟨.rightParen, ⟨1,2⟩⟩], false⟩
      = (.ok (.tupleInit [] ⟨0,2⟩), ⟨[], false⟩)
    ∧ ([] : List Expression).length < 2 :=
  ⟨rfl, by decide⟩

namespace Ast

mutual
/-- The instrumented default visit_expression returns no value and its
trace is exactly the default pre-order node sequence, every node paired
with the unchanged context. -/
theorem visit_expression_default {C O : Type} : ∀ (e : Expression) (a : C),
    visit_expression (O := O) e a = (none, (default_visited e).map (fun n => (n, a)))
  | .identifier i, a => by
    simp [visit_expression, visit_identifier, default_visited]
  | .value v, a => by
    simp [visit_expression, visit_value, default_visited]
  | .binary (.mk op l r), a => by
    simp [visit_expression, visit_binary, default_visited,
      visit_expression_default l a, visit_expression_default r a]
  | .unary (.mk op i), a => by
    simp [visit_expression, visit_unary, default_visited, visit_expression_default i a]
  | .ternary (.mk c t f), a => by
    simp [visit_expression, visit_ternary, default_visited,
      visit_expression_default c a, visit_expression_default t a,
      visit_expression_default f a]
  | .call (.mk f args), a => by
    simp [visit_expression, visit_call, default_visited, visit_arguments_default args a]
  | .err er, a => by
    simp [visit_expression, visit_err, default_visited]
/-- The for_each over call arguments traces the default pre-order sequence
of each argument in order. -/
theorem visit_arguments_default {C O : Type} : ∀ (args : List Expression) (a : C),
    visit_call_arguments (O := O) args a = (default_visited_list args).map (fun n => (n, a))
  | [], a => by simp [visit_call_arguments, default_visited_list]
  | e :: es, a => by
    simp [visit_call_arguments, default_visited_list,
      visit_expression_default e a, visit_arguments_default es a]
end

end Ast

/-- C1 counterexample: the default visit_call handler on the call node
`f()` — whose child expressions per the data model are its function
expression `f` followed by its (here empty) arguments — performs no child
visits at all: its trace is empty, and in particular the function child is
not visited, refuting that every default handler body recursively visits
all child expressions of its node. -/
theorem C1_call_function_not_visited_counterexample :
    (Ast.visit_call (C := Unit) (O := Unit) (.mk (.identifier ⟨"f"⟩) []) ()).2 = []
    ∧ Ast.child_expressions (.call (.mk (.identifier ⟨"f"⟩) [])) = [.identifier ⟨"f"⟩]
    ∧ (Ast.Expression.identifier ⟨"f"⟩) ∉
        ((Ast.visit_call (C := Unit) (O := Unit) (.mk (.identifier ⟨"f"⟩) []) ()).2.map
          Prod.fst) := by
  refine ⟨?_, rfl, ?_⟩
  · simp [Ast.visit_call, Ast.visit_call_arguments]
  · simp [Ast.visit_call, Ast.visit_call_arguments]

/-- C1 amended: visit_expression dispatches over exactly the seven
expression variants of the visitor's exhaustive match (Identifier, Value,
Binary, Unary, Ternary, Call, Err), each to its dedicated per-variant
default handler; every default handler returns no value (None), and the
visit trace is exactly the default pre-order sequence with the context
unchanged — Binary's handler visits left then right, Unary's its inner
expression, Ternary's its condition and both branches, Call's its
arguments in order but not its function expression, and Identifier, Value
and Err visit no children. -/
theorem C1_default_dispatch_and_recursion :
    ∀ (C O : Type) (e : Ast.Expression) (a : C),
      Ast.visit_expression (O := O) e a
        = (none, (Ast.default_visited e).map (fun n => (n, a))) :=
  fun _ _ e a => Ast.visit_expression_default e a

namespace Ast

mutual
/-- The type-checking traversal of one expression appends exactly the
diagnostics of that tree to the sink, never aborting. -/
theorem tc_visit_expression_errors (check : Expression → Option String) :
    ∀ (e : Expression) (h : Handler),
      (tc_visit_expression check e h).errors = h.errors ++ expression_diags check e
  | .identifier i, h => by
    cases hc : check (.identifier i) <;>
      simp [tc_visit_expression, expression_diags, Handler.emit_err, hc]
  | .value v, h => by
    cases hc : check (.value v) <;>
      simp [tc_visit_expression, expression_diags, Handler.emit_err, hc]
  | .binary (.mk op l r), h => by
    cases hc : check (.binary (.mk op l r)) <;>
      simp [tc_visit_expression, expression_diags, Handler.emit_err, hc,
        tc_visit_expression_errors check l, tc_visit_expression_errors check r]
  | .unary (.mk op i), h => by
    cases hc : check (.unary (.mk op i)) <;>
      simp [tc_visit_expression, expression_diags, Handler.emit_err, hc,
        tc_visit_expression_errors check i]
  | .ternary (.mk c t f), h => by
    cases hc : check (.ternary (.mk c t f)) <;>
      simp [tc_visit_expression, expression_diags, Handler.emit_err, hc,
        tc_visit_expression_errors check c, tc_visit_expression_errors check t,
        tc_visit_expression_errors check f]
  | .call (.mk f args), h => by
    cases hc : check (.call (.mk f args)) <;>
      simp [tc_visit_expression, expression_diags, Handler.emit_err, hc,
        tc_visit_expr_list_errors check args]
  | .err e, h => by
    cases hc : check (.err e) <;>
      simp [tc_visit_expression, expression_diags, Handler.emit_err, hc]
/-- List version of tc_visit_expression_errors. -/
theorem tc_visit_expr_list_errors (check : Expression → Option String) :
    ∀ (es : List Expression) (h : Handler),
      (tc_visit_expr_list check es h).errors = h.errors ++ expr_list_diags check es
  | [], h => by simp [tc_visit_expr_list, expr_list_diags]
  | e :: es, h => by
    simp [tc_visit_expr_list, expr_list_diags, tc_visit_expr_list_errors check es,
      tc_visit_expression_errors check e]
end

mutual
/-- The statement traversal appends exactly the statement's diagnostics. -/
theorem tc_visit_statement_errors (check : Expression → Option String) :
    ∀ (s : Statement) (h : Handler),
      (tc_visit_statement check s h).errors = h.errors ++ statement_diags check s
  | .ret (.mk e), h => by
    simp [tc_visit_statement, statement_diags, tc_visit_expression_errors check e]
  | .definition (.mk v), h => by
    simp [tc_visit_statement, statement_diags, tc_visit_expression_errors check v]
  | .assign (.mk v), h => by
    simp [tc_visit_statement, statement_diags, tc_visit_expression_errors check v]
  | .conditional (.mk cnd blk nxt), h => by
    cases nxt with
    | none =>
      simp [tc_visit_statement, statement_diags, tc_visit_expression_errors check cnd,
        tc_visit_block_errors check blk]
    | some s' =>
      simp [tc_visit_statement, statement_diags, tc_visit_expression_errors check cnd,
        tc_visit_block_errors check blk, tc_visit_statement_errors check s']
  | .iteration (.mk start stop blk), h => by
    simp [tc_visit_statement, statement_diags, tc_visit_expression_errors check start,
      tc_visit_expression_errors check stop, tc_visit_block_errors check blk]
  | .console (.mk (.assert e)), h => by
    simp [tc_visit_statement, statement_diags, tc_visit_expression_errors check e]
  | .console (.mk (.error f)), h => by
    simp [tc_visit_statement, statement_diags, tc_visit_expr_list_errors check f.parameters]
  | .console (.mk (.log f)), h => by
    simp [tc_visit_statement, statement_diags, tc_visit_expr_list_errors check f.parameters]
  | .block b, h => by
    simp [tc_visit_statement, statement_diags, tc_visit_block_errors check b]
/-- Block version. -/
theorem tc_visit_block_errors (check : Expression → Option String) :
    ∀ (b : Block) (h : Handler),
      (tc_visit_block check b h).errors = h.errors ++ block_diags check b
  | .mk stmts, h => by
    simp [tc_visit_block, block_diags, tc_visit_stmt_list_errors check stmts]
/-- Statement list version. -/
theorem tc_visit_stmt_list_errors (check : Expression → Option String) :
    ∀ (ss : List Statement) (h : Handler),
      (tc_visit_stmt_list check ss h).errors = h.errors ++ stmt_list_diags check ss
  | [], h => by simp [tc_visit_stmt_list, stmt_list_diags]
  | s :: ss, h => by
    simp [tc_visit_stmt_list, stmt_list_diags, tc_visit_stmt_list_errors check ss,
      tc_visit_statement_errors check s]
end

/-- The program_diags foldl is an append homomorphism in its
accumulator. -/
theorem program_diags_foldl_append (check : Expression → Option String) :
    ∀ (fs : List (String × Function)) (acc : List String),
      fs.foldl (fun acc nf => acc ++ block_diags check nf.2.block) acc
        = acc ++ fs.foldl (fun acc nf => acc ++ block_diags check nf.2.block) [] := by
  intro fs
  induction fs with
  | nil => simp
  | cons nf fs ih =>
    intro acc
    simp only [List.foldl_cons]
    rw [ih (acc ++ block_diags check nf.2.block), ih ([] ++ block_diags check nf.2.block)]
    simp

/-- The whole-program traversal appends exactly the program's diagnostics
to the sink it was given: every function is traversed, in order, with no
early abort. -/
theorem tc_visit_program_errors (check : Expression → Option String) :
    ∀ (fs : List (String × Function)) (h : Handler),
      (tc_visit_program check ⟨fs⟩ h).errors = h.errors ++ program_diags check ⟨fs⟩ := by
  intro fs
  induction fs with
  | nil => intro h; simp [tc_visit_program, program_diags]
  | cons nf fs ih =>
    intro h
    simp only [tc_visit_program, program_diags, List.foldl_cons] at ih ⊢
    rw [ih (tc_visit_function check nf.2 h)]
    rw [program_diags_foldl_append check fs ([] ++ block_diags check nf.2.block)]
    simp [tc_visit_function, tc_visit_block_errors check nf.2.block]

end Ast

/-- C8: the type-checking pass's do_pass traverses the entire program —
the diagnostics sink after traversal holds its prior contents plus, in
order, the diagnostics recorded over every function of the program — and
only then inspects the sink: it returns success exactly when no diagnostic
was recorded during traversal and returns failure whenever at least one
was, irrespective of what the individual node visits produced. -/
theorem C8_do_pass_success_iff_no_diagnostics :
    ∀ (check : Ast.Expression → Option String) (prog : Ast.Program),
      (∀ h : Ast.Handler,
        (Ast.tc_visit_program check prog h).errors
          = h.errors ++ Ast.program_diags check prog)
      ∧ (Ast.do_pass check prog = .ok () ↔ Ast.program_diags check prog = []) := by
  intro check prog
  obtain ⟨fs⟩ := prog
  refine ⟨Ast.tc_visit_program_errors check fs, ?_⟩
  have he : (Ast.tc_visit_program check ⟨fs⟩ ⟨[]⟩).errors = Ast.program_diags check ⟨fs⟩ := by
    simpa using Ast.tc_visit_program_errors check fs ⟨[]⟩
  simp only [Ast.do_pass, Ast.Handler.last_err, he]
  cases hpd : Ast.program_diags check ⟨fs⟩ with
  | nil => simp
  | cons x xs =>
    have hsome : ((x :: xs).getLast?).isSome := by
      rw [List.getLast?_isSome]
      simp
    obtain ⟨e, hee⟩ := Option.isSome_iff_exists.mp hsome
    simp [hee]

/-- Witness for C8: a one-function program whose single expression node is
checked by a reporting check (one diagnostic) and by a silent check (no
diagnostic): the pass fails in the first case and succeeds in the
second. -/
theorem C8_do_pass_success_iff_no_diagnostics_witness :
    (Ast.do_pass (fun _ => some "type mismatch")
        ⟨[("main", ⟨Ast.Block.mk [.ret (.mk (.identifier ⟨"x"⟩))]⟩)]⟩ = .ok ()
      ↔ Ast.program_diags (fun _ => some "type mismatch")
          ⟨[("main", ⟨Ast.Block.mk [.ret (.mk (.identifier ⟨"x"⟩))]⟩)]⟩ = [])
    ∧ (Ast.do_pass (fun _ => none)
        ⟨[("main", ⟨Ast.Block.mk [.ret (.mk (.identifier ⟨"x"⟩))]⟩)]⟩ = .ok ()
      ↔ Ast.program_diags (fun _ => none)
          ⟨[("main", ⟨Ast.Block.mk [.ret (.mk (.identifier ⟨"x"⟩))]⟩)]⟩ = []) :=
  ⟨(C8_do_pass_success_iff_no_diagnostics (fun _ => some "type mismatch")
      ⟨[("main", ⟨Ast.Block.mk [.ret (.mk (.identifier ⟨"x"⟩))]⟩)]⟩).2,
   (C8_do_pass_success_iff_no_diagnostics (fun _ => none)
      ⟨[("main", ⟨Ast.Block.mk [.ret (.mk (.identifier ⟨"x"⟩))]⟩)]⟩).2⟩

/-! ## Invariant layer for the whole-parser theorems -/

/-- The two node invariants tracked through the parser: every binary node's
span is the union of its children's spans, and no tuple-init node has
exactly one element. -/
def ExprOk (e : Expression) : Prop :=
  allOk binary_span_check e = true ∧ allOk tuple_len_check e = true

/-- ExprOk over a list of expressions. -/
def ExprListOk (es : List Expression) : Prop :=
  allOkList binary_span_check es = true ∧ allOkList tuple_len_check es = true

/-- ExprOk over an optional expression. -/
def ExprOptOk (oe : Option Expression) : Prop :=
  allOkOpt binary_span_check oe = true ∧ allOkOpt tuple_len_check oe = true

/-- ExprOk over a spread-or-expression element. -/
def SpreadOk (s : SpreadOrExpression) : Prop :=
  match s with
  | .spread e => ExprOk e
  | .expression e => ExprOk e

/-- ExprOk over a list of spread-or-expression elements. -/
def SpreadListOk (es : List SpreadOrExpression) : Prop :=
  allOkSpreads binary_span_check es = true ∧ allOkSpreads tuple_len_check es = true

/-- ExprOk over a list of circuit-init members. -/
def MembersOk (ms : List CircuitVariableInitializer) : Prop :=
  allOkMembers binary_span_check ms = true ∧ allOkMembers tuple_len_check ms = true

theorem ExprOk.identifier (n : String) (sp : Span) : ExprOk (.identifier n sp) := by
  constructor <;> simp [spansOkBin, tupleLenOk, allOk, binary_span_check, tuple_len_check]

theorem ExprOk.value (v : ValueExpression) : ExprOk (.value v) := by
  constructor <;> simp [spansOkBin, tupleLenOk, allOk, binary_span_check, tuple_len_check]

theorem ExprOk.err_node (sp : Span) : ExprOk (.err sp) := by
  constructor <;> simp [spansOkBin, tupleLenOk, allOk, binary_span_check, tuple_len_check]

theorem ExprOk.bin_expr {l r : Expression} (op : BinaryOperation)
    (hl : ExprOk l) (hr : ExprOk r) : ExprOk (bin_expr l r op) := by
  obtain ⟨hl1, hl2⟩ := hl
  obtain ⟨hr1, hr2⟩ := hr
  constructor <;>
    simp [bin_expr, spansOkBin, tupleLenOk, allOk, binary_span_check, tuple_len_check,
      hl1, hl2, hr1, hr2]

theorem ExprOk.unary {i : Expression} (op : UnaryOperation) (sp : Span)
    (hi : ExprOk i) : ExprOk (.unary op i sp) := by
  obtain ⟨h1, h2⟩ := hi
  constructor <;>
    simp [spansOkBin, tupleLenOk, allOk, binary_span_check, tuple_len_check, h1, h2]

theorem ExprOk.ternary {c t f : Expression} (sp : Span)
    (hc : ExprOk c) (ht : ExprOk t) (hf : ExprOk f) : ExprOk (.ternary c t f sp) := by
  obtain ⟨hc1, hc2⟩ := hc
  obtain ⟨ht1, ht2⟩ := ht
  obtain ⟨hf1, hf2⟩ := hf
  constructor <;>
    simp [spansOkBin, tupleLenOk, allOk, binary_span_check, tuple_len_check,
      hc1, hc2, ht1, ht2, hf1, hf2]

theorem ExprOk.cast {i : Expression} (ty : AstType) (sp : Span)
    (hi : ExprOk i) : ExprOk (.cast i ty sp) := by
  obtain ⟨h1, h2⟩ := hi
  constructor <;>
    simp [spansOkBin, tupleLenOk, allOk, binary_span_check, tuple_len_check, h1, h2]

theorem ExprOk.call {f : Expression} {args : List Expression} (sp : Span)
    (hf : ExprOk f) (hargs : ExprListOk args) : ExprOk (.call f args sp) := by
  obtain ⟨h1, h2⟩ := hf
  obtain ⟨g1, g2⟩ := hargs
  constructor <;>
    simp [spansOkBin, tupleLenOk, allOk, binary_span_check, tuple_len_check, h1, h2, g1, g2]

theorem ExprOk.arrayAccess {a i : Expression} (sp : Span)
    (ha : ExprOk a) (hi : ExprOk i) : ExprOk (.arrayAccess a i sp) := by
  obtain ⟨h1, h2⟩ := ha
  obtain ⟨g1, g2⟩ := hi
  constructor <;>
    simp [spansOkBin, tupleLenOk, allOk, binary_span_check, tuple_len_check, h1, h2, g1, g2]

theorem ExprOk.arrayRangeAccess {a : Expression} {l r : Option Expression} (sp : Span)
    (ha : ExprOk a) (hl : ExprOptOk l) (hr : ExprOptOk r) :
    ExprOk (.arrayRangeAccess a l r sp) := by
  obtain ⟨h1, h2⟩ := ha
  obtain ⟨l1, l2⟩ := hl
  obtain ⟨r1, r2⟩ := hr
  constructor <;>
    simp [spansOkBin, tupleLenOk, allOk, binary_span_check, tuple_len_check,
      h1, h2, l1, l2, r1, r2]

theorem ExprOk.memberAccess {i : Expression} (n : String) (sp : Span)
    (hi : ExprOk i) : ExprOk (.memberAccess i n sp) := by
  obtain ⟨h1, h2⟩ := hi
  constructor <;>
    simp [spansOkBin, tupleLenOk, allOk, binary_span_check, tuple_len_check, h1, h2]

theorem ExprOk.tupleAccess {t : Expression} (n : String) (sp : Span)
    (ht : ExprOk t) : ExprOk (.tupleAccess t n sp) := by
  obtain ⟨h1, h2⟩ := ht
  constructor <;>
    simp [spansOkBin, tupleLenOk, allOk, binary_span_check, tuple_len_check, h1, h2]

theorem ExprOk.staticAccess {i : Expression} (n : String) (sp : Span)
    (hi : ExprOk i) : ExprOk (.staticAccess i n sp) := by
  obtain ⟨h1, h2⟩ := hi
  constructor <;>
    simp [spansOkBin, tupleLenOk, allOk, binary_span_check, tuple_len_check, h1, h2]

theorem ExprOk.circuitInit (n : String) (nsp : Span) {ms : List CircuitVariableInitializer}
    (sp : Span) (hms : MembersOk ms) : ExprOk (.circuitInit n nsp ms sp) := by
  obtain ⟨h1, h2⟩ := hms
  constructor <;>
    simp [spansOkBin, tupleLenOk, allOk, binary_span_check, tuple_len_check, h1, h2]

theorem ExprOk.tupleInit {els : List Expression} (sp : Span)
    (hels : ExprListOk els) (hlen : els.length ≠ 1) : ExprOk (.tupleInit els sp) := by
  obtain ⟨h1, h2⟩ := hels
  constructor <;>
    simp [spansOkBin, tupleLenOk, allOk, binary_span_check, tuple_len_check, h1, h2, hlen]

theorem ExprOk.arrayInline {els : List SpreadOrExpression} (sp : Span)
    (hels : SpreadListOk els) : ExprOk (.arrayInline els sp) := by
  obtain ⟨h1, h2⟩ := hels
  constructor <;>
    simp [spansOkBin, tupleLenOk, allOk, binary_span_check, tuple_len_check, h1, h2]

theorem ExprOk.arrayInit {el : Expression} (dims : List String) (sp : Span)
    (hel : ExprOk el) : ExprOk (.arrayInit el dims sp) := by
  obtain ⟨h1, h2⟩ := hel
  constructor <;>
    simp [spansOkBin, tupleLenOk, allOk, binary_span_check, tuple_len_check, h1, h2]

theorem ExprListOk.nil_expr : ExprListOk [] := by
  constructor <;> simp [allOkList]

theorem ExprListOk.cons_inv_expr {e : Expression} {es : List Expression}
    (h : ExprListOk (e :: es)) : ExprOk e ∧ ExprListOk es := by
  obtain ⟨h1, h2⟩ := h
  simp [allOkList] at h1 h2
  exact ⟨⟨h1.1, h2.1⟩, h1.2, h2.2⟩

theorem ExprListOk.append_single_expr {es : List Expression} {e : Expression}
    (hes : ExprListOk es) (he : ExprOk e) : ExprListOk (es ++ [e]) := by
  induction es with
  | nil =>
    obtain ⟨e1, e2⟩ := he
    constructor <;> simp [allOkList, e1, e2]
  | cons x xs ih =>
    obtain ⟨hx, hxs⟩ := hes.cons_inv_expr
    obtain ⟨r1, r2⟩ := ih hxs
    obtain ⟨x1, x2⟩ := hx
    constructor <;> simp [allOkList, x1, x2, r1, r2]

theorem ExprOptOk.none_opt : ExprOptOk none := by
  constructor <;> simp [allOkOpt]

theorem ExprOptOk.some_opt {e : Expression} (he : ExprOk e) : ExprOptOk (some e) := by
  obtain ⟨h1, h2⟩ := he
  constructor <;> simp [allOkOpt, h1, h2]

theorem SpreadListOk.nil_spread : SpreadListOk [] := by
  constructor <;> simp [allOkSpreads]

theorem SpreadListOk.cons_spread {s : SpreadOrExpression} {es : List SpreadOrExpression}
    (hs : SpreadOk s) (hes : SpreadListOk es) : SpreadListOk (s :: es) := by
  obtain ⟨l1, l2⟩ := hes
  cases s with
  | spread e =>
    obtain ⟨h1, h2⟩ : ExprOk e := hs
    constructor <;> simp [allOkSpreads, h1, h2, l1, l2]
  | expression e =>
    obtain ⟨h1, h2⟩ : ExprOk e := hs
    constructor <;> simp [allOkSpreads, h1, h2, l1, l2]

theorem SpreadListOk.cons_inv_spread {s : SpreadOrExpression} {es : List SpreadOrExpression}
    (h : SpreadListOk (s :: es)) : SpreadOk s ∧ SpreadListOk es := by
  obtain ⟨h1, h2⟩ := h
  cases s with
  | spread e =>
    simp [allOkSpreads] at h1 h2
    exact ⟨⟨h1.1, h2.1⟩, h1.2, h2.2⟩
  | expression e =>
    simp [allOkSpreads] at h1 h2
    exact ⟨⟨h1.1, h2.1⟩, h1.2, h2.2⟩

theorem SpreadListOk.append_single_spread {es : List SpreadOrExpression} {s : SpreadOrExpression}
    (hes : SpreadListOk es) (hs : SpreadOk s) : SpreadListOk (es ++ [s]) := by
  induction es with
  | nil => exact SpreadListOk.cons_spread hs SpreadListOk.nil_spread
  | cons x xs ih =>
    obtain ⟨hx, hxs⟩ := hes.cons_inv_spread
    exact SpreadListOk.cons_spread hx (ih hxs)

theorem MembersOk.nil_members : MembersOk [] := by
  constructor <;> simp [allOkMembers]

theorem MembersOk.cons_members {n : String} {nsp : Span} {oe : Option Expression}
    {ms : List CircuitVariableInitializer}
    (hoe : ExprOptOk oe) (hms : MembersOk ms) : MembersOk (.mk n nsp oe :: ms) := by
  obtain ⟨o1, o2⟩ := hoe
  obtain ⟨m1, m2⟩ := hms
  constructor <;> simp [allOkMembers, o1, o2, m1, m2]

theorem MembersOk.cons_inv_members {m : CircuitVariableInitializer}
    {ms : List CircuitVariableInitializer} (h : MembersOk (m :: ms)) :
    MembersOk ms := by
  obtain ⟨h1, h2⟩ := h
  cases m with
  | mk n nsp oe =>
    simp [allOkMembers] at h1 h2
    exact ⟨h1.2, h2.2⟩

theorem MembersOk.cons_inv_opt {m : CircuitVariableInitializer}
    {ms : List CircuitVariableInitializer} (h : MembersOk (m :: ms)) :
    ExprOptOk (match m with | .mk _ _ oe => oe) := by
  obtain ⟨h1, h2⟩ := h
  cases m with
  | mk n nsp oe =>
    simp [allOkMembers] at h1 h2
    exact ⟨h1.1, h2.1⟩

theorem MembersOk.append_single_members {ms : List CircuitVariableInitializer}
    {n : String} {nsp : Span} {oe : Option Expression}
    (hms : MembersOk ms) (hoe : ExprOptOk oe) : MembersOk (ms ++ [.mk n nsp oe]) := by
  induction ms with
  | nil => exact MembersOk.cons_members hoe MembersOk.nil_members
  | cons x xs ih =>
    have hx := hms.cons_inv_opt
    have hxs := hms.cons_inv_members
    cases x with
    | mk a b c => exact MembersOk.cons_members hx (ih hxs)

/-- The unary prefix fold preserves the node invariants: each step only
wraps in a unary node. -/
theorem apply_unary_ops_preserves (ops : List SpannedToken) {inner : Expression}
    (hi : ExprOk inner) : ExprOk (apply_unary_ops ops inner) := by
  unfold apply_unary_ops
  generalize ops.reverse = l
  induction l generalizing inner with
  | nil => exact hi
  | cons op rest ih =>
    simp only [List.foldl_cons]
    cases hop : op.token
    case kw k => cases k <;> exact ih (ExprOk.unary _ _ hi)
    all_goals exact ih (ExprOk.unary _ _ hi)

/-- Inversion of pbind on a successful outcome. -/
theorem pbind_ok {α β : Type} {r : PResult α} {k : α → ParserContext → PResult β}
    {b : β} {p' : ParserContext} (h : pbind r k = (.ok b, p')) :
    ∃ x pm, r = (.ok x, pm) ∧ k x pm = (.ok b, p') := by
  obtain ⟨res, pm⟩ := r
  cases res with
  | error e => simp [pbind] at h
  | ok x => exact ⟨x, pm, rfl, h⟩

/-- A successful eat_any only ever yields a token from the candidate
list. -/
theorem eat_any_mem {p : ParserContext} {ts : List Token} {st : SpannedToken}
    {p' : ParserContext} (h : p.eat_any ts = (some st, p')) : st.token ∈ ts := by
  unfold ParserContext.eat_any at h
  split at h
  next st0 rest heq =>
    split at h
    next hc =>
      simp only [Prod.mk.injEq, Option.some.injEq] at h
      obtain ⟨rfl, -⟩ := h
      simpa using hc
    next hc => simp at h
  next heq => simp at h

/-- Invariant statement for a plain expression-level parse function. -/
def PE (f : Nat → ParserContext → PResult Expression) (fuel : Nat) : Prop :=
  ∀ p e p', f fuel p = (.ok e, p') → ExprOk e

/-- Invariant statement for an accumulator chain loop. -/
def PL (f : Nat → Expression → ParserContext → PResult Expression) (fuel : Nat) : Prop :=
  ∀ expr p e p', ExprOk expr → f fuel expr p = (.ok e, p') → ExprOk e

/-- Invariant statement for an expression-list accumulator loop. -/
def PArgs (f : Nat → List Expression → ParserContext → PResult (List Expression × Span))
    (fuel : Nat) : Prop :=
  ∀ args p r p', ExprListOk args → f fuel args p = (.ok r, p') → ExprListOk r.1

/-- Invariant statement for a parse function taking an opening span. -/
def PSpan (f : Nat → Span → ParserContext → PResult Expression) (fuel : Nat) : Prop :=
  ∀ sp p e p', f fuel sp p = (.ok e, p') → ExprOk e

/-- All node invariants hold in every successful output of every parser
entry point, at a given fuel. -/
structure ParserInv (fuel : Nat) : Prop where
  expr : PE parse_expression fuel
  cond : PE parse_conditional_expression fuel
  disj : PE parse_disjunctive_expression fuel
  disj_loop : PL parse_disjunctive_loop fuel
  conj : PE parse_conjunctive_expression fuel
  conj_loop : PL parse_conjunctive_loop fuel
  equality : PE parse_equality_expression fuel
  ordering : PE parse_ordering_expression fuel
  ordering_loop : PL parse_ordering_loop fuel
  additive : PE parse_additive_expression fuel
  additive_loop : PL parse_additive_loop fuel
  multiplicative : PE parse_multiplicative_expression fuel
  multiplicative_loop : PL parse_multiplicative_loop fuel
  exponential : PE parse_exponential_expression fuel
  cast_e : PE parse_cast_expression fuel
  cast_loop : PL parse_cast_loop fuel
  unary_e : PE parse_unary_expression fuel
  postfix_e : PE parse_postfix_expression fuel
  postfix_loop : PL parse_postfix_loop fuel
  range_right : ∀ p oe p', parse_range_right fuel p = (.ok oe, p') → ExprOptOk oe
  call_args : PArgs parse_call_arguments fuel
  spread : ∀ p s p', parse_spread_or_expression fuel p = (.ok s, p') → SpreadOk s
  circuit : ∀ name nsp p e p',
    parse_circuit_expression fuel name nsp p = (.ok e, p') → ExprOk e
  circuit_members : ∀ ms p r p', MembersOk ms →
    parse_circuit_members fuel ms p = (.ok r, p') → MembersOk r.1
  tuple_e : PSpan parse_tuple_expression fuel
  tuple_args : PArgs parse_tuple_args fuel
  array_e : PSpan parse_array_expression fuel
  array_elems : ∀ els sp p e p', SpreadListOk els →
    parse_array_elements fuel els sp p = (.ok e, p') → ExprOk e
  array_push : ∀ els sp p e p', SpreadListOk els →
    parse_array_elements_push fuel els sp p = (.ok e, p') → ExprOk e
  primary : PE parse_primary_expression fuel

/-- At zero fuel every parser function fails, so the invariants hold
vacuously. -/
theorem parser_inv_zero : ParserInv 0 := by
  constructor <;>
    · try unfold PE
      try unfold PL
      try unfold PArgs
      try unfold PSpan
      intros
      rename_i h
      simp [parse_expression, parse_conditional_expression,
        parse_disjunctive_expression, parse_disjunctive_loop, parse_conjunctive_expression,
        parse_conjunctive_loop, parse_equality_expression, parse_ordering_expression,
        parse_ordering_loop, parse_additive_expression, parse_additive_loop,
        parse_multiplicative_expression, parse_multiplicative_loop,
        parse_exponential_expression, parse_cast_expression, parse_cast_loop,
        parse_unary_expression, parse_postfix_expression, parse_postfix_loop,
        parse_range_right, parse_call_arguments, parse_spread_or_expression,
        parse_circuit_expression, parse_circuit_members, parse_tuple_expression,
        parse_tuple_args, parse_array_expression, parse_array_elements,
        parse_array_elements_push, parse_primary_expression] at h

theorem parser_inv_step_expr {fuel : Nat} (ih : ParserInv fuel) :
    PE parse_expression (fuel + 1) := by
  intro p e p' h
  simp only [parse_expression] at h
  simp only [Prod.mk.injEq] at h
  obtain ⟨h1, h2⟩ := h
  exact ih.cond _ e _ (by rw [← h1])

theorem parser_inv_step_cond {fuel : Nat} (ih : ParserInv fuel) :
    PE parse_conditional_expression (fuel + 1) := by
  intro p e p' h
  simp only [parse_conditional_expression] at h
  obtain ⟨expr, p1, hd, h⟩ := pbind_ok h
  have hexpr := ih.disj _ _ _ hd
  split at h
  · simp only [Prod.mk.injEq, Except.ok.injEq] at h
    obtain ⟨rfl, -⟩ := h
    exact hexpr
  · obtain ⟨t, p2, ht, h⟩ := pbind_ok h
    have htrue := ih.expr _ _ _ ht
    obtain ⟨sp, p3, hc, h⟩ := pbind_ok h
    obtain ⟨f, p4, hf, h⟩ := pbind_ok h
    have hfalse := ih.cond _ _ _ hf
    simp only [Prod.mk.injEq, Except.ok.injEq] at h
    obtain ⟨rfl, -⟩ := h
    exact ExprOk.ternary _ hexpr htrue hfalse

theorem parser_inv_step_disj {fuel : Nat} (ih : ParserInv fuel) :
    PE parse_disjunctive_expression (fuel + 1) := by
  intro p e p' h
  simp only [parse_disjunctive_expression] at h
  obtain ⟨x, pm, hx, h⟩ := pbind_ok h
  exact ih.disj_loop _ _ _ _ (ih.conj _ _ _ hx) h

theorem parser_inv_step_disj_loop {fuel : Nat} (ih : ParserInv fuel) :
    PL parse_disjunctive_loop (fuel + 1) := by
  intro expr p e p' hok h
  simp only [parse_disjunctive_loop] at h
  split at h
  · simp only [Prod.mk.injEq, Except.ok.injEq] at h
    obtain ⟨rfl, -⟩ := h
    exact hok
  · obtain ⟨right, pm, hr, h⟩ := pbind_ok h
    exact ih.disj_loop _ _ _ _ (ExprOk.bin_expr _ hok (ih.conj _ _ _ hr)) h

theorem parser_inv_step_conj {fuel : Nat} (ih : ParserInv fuel) :
    PE parse_conjunctive_expression (fuel + 1) := by
  intro p e p' h
  simp only [parse_conjunctive_expression] at h
  obtain ⟨x, pm, hx, h⟩ := pbind_ok h
  exact ih.conj_loop _ _ _ _ (ih.equality _ _ _ hx) h

theorem parser_inv_step_conj_loop {fuel : Nat} (ih : ParserInv fuel) :
    PL parse_conjunctive_loop (fuel + 1) := by
  intro expr p e p' hok h
  simp only [parse_conjunctive_loop] at h
  split at h
  · simp only [Prod.mk.injEq, Except.ok.injEq] at h
    obtain ⟨rfl, -⟩ := h
    exact hok
  · obtain ⟨right, pm, hr, h⟩ := pbind_ok h
    exact ih.conj_loop _ _ _ _ (ExprOk.bin_expr _ hok (ih.equality _ _ _ hr)) h

theorem parser_inv_step_equality {fuel : Nat} (ih : ParserInv fuel) :
    PE parse_equality_expression (fuel + 1) := by
  intro p e p' h
  simp only [parse_equality_expression] at h
  obtain ⟨x, pm, hx, h⟩ := pbind_ok h
  have hX := ih.ordering _ _ _ hx
  split at h
  · simp only [Prod.mk.injEq, Except.ok.injEq] at h
    obtain ⟨rfl, -⟩ := h
    exact hX
  next st p2 heq =>
    obtain ⟨right, pr, hr, h⟩ := pbind_ok h
    have hR := ih.ordering _ _ _ hr
    have hmem := eat_any_mem heq
    obtain ⟨tok, tsp⟩ := st
    simp only at hmem
    fin_cases hmem <;>
      · simp only [Prod.mk.injEq, Except.ok.injEq] at h
        obtain ⟨rfl, -⟩ := h
        exact ExprOk.bin_expr _ hX hR

theorem parser_inv_step_ordering {fuel : Nat} (ih : ParserInv fuel) :
    PE parse_ordering_expression (fuel + 1) := by
  intro p e p' h
  simp only [parse_ordering_expression] at h
  obtain ⟨x, pm, hx, h⟩ := pbind_ok h
  exact ih.ordering_loop _ _ _ _ (ih.additive _ _ _ hx) h

theorem parser_inv_step_ordering_loop {fuel : Nat} (ih : ParserInv fuel) :
    PL parse_ordering_loop (fuel + 1) := by
  intro expr p e p' hok h
  simp only [parse_ordering_loop] at h
  split at h
  · simp only [Prod.mk.injEq, Except.ok.injEq] at h
    obtain ⟨rfl, -⟩ := h
    exact hok
  next st p2 heq =>
    obtain ⟨right, pr, hr, h⟩ := pbind_ok h
    have hR := ih.additive _ _ _ hr
    have hmem := eat_any_mem heq
    obtain ⟨tok, tsp⟩ := st
    simp only at hmem
    fin_cases hmem <;>
      exact ih.ordering_loop _ _ _ _ (ExprOk.bin_expr _ hok hR) h

theorem parser_inv_step_additive {fuel : Nat} (ih : ParserInv fuel) :
    PE parse_additive_expression (fuel + 1) := by
  intro p e p' h
  simp only [parse_additive_expression] at h
  obtain ⟨x, pm, hx, h⟩ := pbind_ok h
  exact ih.additive_loop _ _ _ _ (ih.multiplicative _ _ _ hx) h

theorem parser_inv_step_additive_loop {fuel : Nat} (ih : ParserInv fuel) :
    PL parse_additive_loop (fuel + 1) := by
  intro expr p e p' hok h
  simp only [parse_additive_loop] at h
  split at h
  · simp only [Prod.mk.injEq, Except.ok.injEq] at h
    obtain ⟨rfl, -⟩ := h
    exact hok
  next st p2 heq =>
    obtain ⟨right, pr, hr, h⟩ := pbind_ok h
    have hR := ih.multiplicative _ _ _ hr
    have hmem := eat_any_mem heq
    obtain ⟨tok, tsp⟩ := st
    simp only at hmem
    fin_cases hmem <;>
      exact ih.additive_loop _ _ _ _ (ExprOk.bin_expr _ hok hR) h

theorem parser_inv_step_multiplicative {fuel : Nat} (ih : ParserInv fuel) :
    PE parse_multiplicative_expression (fuel + 1) := by
  intro p e p' h
  simp only [parse_multiplicative_expression] at h
  obtain ⟨x, pm, hx, h⟩ := pbind_ok h
  exact ih.multiplicative_loop _ _ _ _ (ih.exponential _ _ _ hx) h

theorem parser_inv_step_multiplicative_loop {fuel : Nat} (ih : ParserInv fuel) :
    PL parse_multiplicative_loop (fuel + 1) := by
  intro expr p e p' hok h
  simp only [parse_multiplicative_loop] at h
  split at h
  · simp only [Prod.mk.injEq, Except.ok.injEq] at h
    obtain ⟨rfl, -⟩ := h
    exact hok
  next st p2 heq =>
    obtain ⟨right, pr, hr, h⟩ := pbind_ok h
    have hR := ih.exponential _ _ _ hr
    have hmem := eat_any_mem heq
    obtain ⟨tok, tsp⟩ := st
    simp only at hmem
    fin_cases hmem <;>
      exact ih.multiplicative_loop _ _ _ _ (ExprOk.bin_expr _ hok hR) h

theorem parser_inv_step_exponential {fuel : Nat} (ih : ParserInv fuel) :
    PE parse_exponential_expression (fuel + 1) := by
  intro p e p' h
  simp only [parse_exponential_expression] at h
  obtain ⟨x, pm, hx, h⟩ := pbind_ok h
  have hX := ih.cast_e _ _ _ hx
  split at h
  · simp only [Prod.mk.injEq, Except.ok.injEq] at h
    obtain ⟨rfl, -⟩ := h
    exact hX
  · obtain ⟨right, pr, hr, h⟩ := pbind_ok h
    simp only [Prod.mk.injEq, Except.ok.injEq] at h
    obtain ⟨rfl, -⟩ := h
    exact ExprOk.bin_expr _ hX (ih.exponential _ _ _ hr)

theorem parser_inv_step_cast {fuel : Nat} (ih : ParserInv fuel) :
    PE parse_cast_expression (fuel + 1) := by
  intro p e p' h
  simp only [parse_cast_expression] at h
  obtain ⟨x, pm, hx, h⟩ := pbind_ok h
  exact ih.cast_loop _ _ _ _ (ih.unary_e _ _ _ hx) h

theorem parser_inv_step_cast_loop {fuel : Nat} (ih : ParserInv fuel) :
    PL parse_cast_loop (fuel + 1) := by
  intro expr p e p' hok h
  simp only [parse_cast_loop] at h
  split at h
  · simp only [Prod.mk.injEq, Except.ok.injEq] at h
    obtain ⟨rfl, -⟩ := h
    exact hok
  · obtain ⟨ts, pm, hts, h⟩ := pbind_ok h
    exact ih.cast_loop _ _ _ _ (ExprOk.cast _ _ hok) h

theorem parser_inv_step_unary {fuel : Nat} (ih : ParserInv fuel) :
    PE parse_unary_expression (fuel + 1) := by
  intro p e p' h
  simp only [parse_unary_expression] at h
  obtain ⟨inner, pm, hi, h⟩ := pbind_ok h
  simp only [Prod.mk.injEq, Except.ok.injEq] at h
  obtain ⟨rfl, -⟩ := h
  exact apply_unary_ops_preserves _ (ih.postfix_e _ _ _ hi)

theorem parser_inv_step_postfix {fuel : Nat} (ih : ParserInv fuel) :
    PE parse_postfix_expression (fuel + 1) := by
  intro p e p' h
  simp only [parse_postfix_expression] at h
  obtain ⟨x, pm, hx, h⟩ := pbind_ok h
  exact ih.postfix_loop _ _ _ _ (ih.primary _ _ _ hx) h

theorem parser_inv_step_postfix_loop {fuel : Nat} (ih : ParserInv fuel) :
    PL parse_postfix_loop (fuel + 1) := by
  intro expr p e p' hok h
  simp only [parse_postfix_loop] at h
  split at h
  · simp only [Prod.mk.injEq, Except.ok.injEq] at h
    obtain ⟨rfl, -⟩ := h
    exact hok
  next st p1 heq =>
    have hmem := eat_any_mem heq
    obtain ⟨tok, tsp⟩ := st
    simp only at hmem h
    fin_cases hmem <;> dsimp only at h
    · -- leftSquare
      split at h
      · -- `..` immediately: range with no left bound
        obtain ⟨right, p2, hrr, h⟩ := pbind_ok h
        obtain ⟨endsp, p3, hend, h⟩ := pbind_ok h
        exact ih.postfix_loop _ _ _ _
          (ExprOk.arrayRangeAccess _ hok ExprOptOk.none_opt (ih.range_right _ _ _ hrr)) h
      · -- a full expression first
        obtain ⟨left, p2, hl, h⟩ := pbind_ok h
        have hL := ih.expr _ _ _ hl
        split at h
        · obtain ⟨right, p3, hrr, h⟩ := pbind_ok h
          obtain ⟨endsp, p4, hend, h⟩ := pbind_ok h
          exact ih.postfix_loop _ _ _ _
            (ExprOk.arrayRangeAccess _ hok (ExprOptOk.some_opt hL)
              (ih.range_right _ _ _ hrr)) h
        · obtain ⟨endsp, p3, hend, h⟩ := pbind_ok h
          exact ih.postfix_loop _ _ _ _ (ExprOk.arrayAccess _ hok hL) h
    · -- dot
      split at h
      · exact ih.postfix_loop _ _ _ _ (ExprOk.memberAccess _ _ hok) h
      · split at h
        · exact ih.postfix_loop _ _ _ _ (ExprOk.tupleAccess _ _ hok) h
        · split at h <;> simp at h
    · -- leftParen
      obtain ⟨r, p2, hargs, h⟩ := pbind_ok h
      exact ih.postfix_loop _ _ _ _
        (ExprOk.call _ hok (ih.call_args _ _ _ _ ExprListOk.nil_expr hargs)) h
    · -- doubleColon
      obtain ⟨id, p2, hid, h⟩ := pbind_ok h
      exact ih.postfix_loop _ _ _ _ (ExprOk.staticAccess _ _ hok) h

theorem parser_inv_step_range_right {fuel : Nat} (ih : ParserInv fuel) :
    ∀ p oe p', parse_range_right (fuel + 1) p = (.ok oe, p') → ExprOptOk oe := by
  intro p oe p' h
  simp only [parse_range_right] at h
  split at h
  · obtain ⟨x, pm, hx, h⟩ := pbind_ok h
    simp only [Prod.mk.injEq, Except.ok.injEq] at h
    obtain ⟨rfl, -⟩ := h
    exact ExprOptOk.some_opt (ih.expr _ _ _ hx)
  · simp only [Prod.mk.injEq, Except.ok.injEq] at h
    obtain ⟨rfl, -⟩ := h
    exact ExprOptOk.none_opt

theorem parser_inv_step_call_args {fuel : Nat} (ih : ParserInv fuel) :
    PArgs parse_call_arguments (fuel + 1) := by
  intro args p r p' hargs h
  simp only [parse_call_arguments] at h
  split at h
  · simp only [Prod.mk.injEq, Except.ok.injEq] at h
    obtain ⟨rfl, -⟩ := h
    exact hargs
  · obtain ⟨a, p2, ha, h⟩ := pbind_ok h
    have hA := ih.expr _ _ _ ha
    split at h
    · exact ih.call_args _ _ _ _ (hargs.append_single_expr hA) h
    · obtain ⟨endsp, p3, he, h⟩ := pbind_ok h
      simp only [Prod.mk.injEq, Except.ok.injEq] at h
      obtain ⟨rfl, -⟩ := h
      exact hargs.append_single_expr hA

theorem parser_inv_step_spread {fuel : Nat} (ih : ParserInv fuel) :
    ∀ p s p', parse_spread_or_expression (fuel + 1) p = (.ok s, p') → SpreadOk s := by
  intro p s p' h
  simp only [parse_spread_or_expression] at h
  split at h
  · obtain ⟨x, pm, hx, h⟩ := pbind_ok h
    simp only [Prod.mk.injEq, Except.ok.injEq] at h
    obtain ⟨rfl, -⟩ := h
    exact ih.expr _ _ _ hx
  · obtain ⟨x, pm, hx, h⟩ := pbind_ok h
    simp only [Prod.mk.injEq, Except.ok.injEq] at h
    obtain ⟨rfl, -⟩ := h
    exact ih.expr _ _ _ hx

theorem parser_inv_step_circuit {fuel : Nat} (ih : ParserInv fuel) :
    ∀ name nsp p e p',
      parse_circuit_expression (fuel + 1) name nsp p = (.ok e, p') → ExprOk e := by
  intro name nsp p e p' h
  simp only [parse_circuit_expression] at h
  obtain ⟨osp, p1, ho, h⟩ := pbind_ok h
  obtain ⟨r, p2, hm, h⟩ := pbind_ok h
  simp only [Prod.mk.injEq, Except.ok.injEq] at h
  obtain ⟨rfl, -⟩ := h
  exact ExprOk.circuitInit _ _ _ (ih.circuit_members _ _ _ _ MembersOk.nil_members hm)

theorem parser_inv_step_circuit_members {fuel : Nat} (ih : ParserInv fuel) :
    ∀ ms p r p', MembersOk ms →
      parse_circuit_members (fuel + 1) ms p = (.ok r, p') → MembersOk r.1 := by
  intro ms p r p' hms h
  simp only [parse_circuit_members] at h
  split at h
  · simp only [Prod.mk.injEq, Except.ok.injEq] at h
    obtain ⟨rfl, -⟩ := h
    exact hms
  · obtain ⟨id, p2, hid, h⟩ := pbind_ok h
    split at h
    · -- explicit `: expression` value
      obtain ⟨ex, p3, hex, h⟩ := pbind_ok h
      have hEx := ih.expr _ _ _ hex
      split at h
      · exact ih.circuit_members _ _ _ _
          (hms.append_single_members (ExprOptOk.some_opt hEx)) h
      · obtain ⟨endsp, p4, he, h⟩ := pbind_ok h
        simp only [Prod.mk.injEq, Except.ok.injEq] at h
        obtain ⟨rfl, -⟩ := h
        exact hms.append_single_members (ExprOptOk.some_opt hEx)
    · -- shorthand member
      split at h
      · exact ih.circuit_members _ _ _ _ (hms.append_single_members ExprOptOk.none_opt) h
      · obtain ⟨endsp, p4, he, h⟩ := pbind_ok h
        simp only [Prod.mk.injEq, Except.ok.injEq] at h
        obtain ⟨rfl, -⟩ := h
        exact hms.append_single_members ExprOptOk.none_opt

theorem parser_inv_step_tuple_args {fuel : Nat} (ih : ParserInv fuel) :
    PArgs parse_tuple_args (fuel + 1) := by
  intro args p r p' hargs h
  simp only [parse_tuple_args] at h
  split at h
  · simp only [Prod.mk.injEq, Except.ok.injEq] at h
    obtain ⟨rfl, -⟩ := h
    exact hargs
  · obtain ⟨a, p2, ha, h⟩ := pbind_ok h
    have hA := ih.expr _ _ _ ha
    split at h
    · exact ih.tuple_args _ _ _ _ (hargs.append_single_expr hA) h
    · obtain ⟨endsp, p3, he, h⟩ := pbind_ok h
      simp only [Prod.mk.injEq, Except.ok.injEq] at h
      obtain ⟨rfl, -⟩ := h
      exact hargs.append_single_expr hA

theorem parser_inv_step_tuple {fuel : Nat} (ih : ParserInv fuel) :
    PSpan parse_tuple_expression (fuel + 1) := by
  intro sp p e p' h
  simp only [parse_tuple_expression] at h
  split at h
  · -- affine group literal short cut
    simp only [Prod.mk.injEq, Except.ok.injEq] at h
    obtain ⟨rfl, -⟩ := h
    exact ExprOk.value _
  · obtain ⟨r, p2, hr, h⟩ := pbind_ok h
    have hR := ih.tuple_args _ _ _ _ ExprListOk.nil_expr hr
    split at h
    next x heq =>
      -- exactly one collected expression: returned unwrapped
      simp only [Prod.mk.injEq, Except.ok.injEq] at h
      obtain ⟨rfl, -⟩ := h
      rw [heq] at hR
      exact hR.cons_inv_expr.1
    next heq =>
      -- any other length: a tuple-init node
      simp only [Prod.mk.injEq, Except.ok.injEq] at h
      obtain ⟨rfl, -⟩ := h
      refine ExprOk.tupleInit _ hR ?_
      intro hlen
      cases hl : r.1 with
      | nil => simp [hl] at hlen
      | cons a t =>
        cases t with
        | nil => exact heq a hl
        | cons b t2 => simp [hl] at hlen

theorem parser_inv_step_array_elems {fuel : Nat} (ih : ParserInv fuel) :
    ∀ els sp p e p', SpreadListOk els →
      parse_array_elements (fuel + 1) els sp p = (.ok e, p') → ExprOk e := by
  intro els sp p e p' hels h
  simp only [parse_array_elements] at h
  split at h
  · simp only [Prod.mk.injEq, Except.ok.injEq] at h
    obtain ⟨rfl, -⟩ := h
    exact ExprOk.arrayInline _ hels
  · split at h
    · -- exactly one element so far: an explicit comma is required
      obtain ⟨csp, p2, hc, h⟩ := pbind_ok h
      split at h
      · simp only [Prod.mk.injEq, Except.ok.injEq] at h
        obtain ⟨rfl, -⟩ := h
        exact ExprOk.arrayInline _ hels
      · exact ih.array_push _ _ _ _ _ hels h
    · exact ih.array_push _ _ _ _ _ hels h

theorem parser_inv_step_array_push {fuel : Nat} (ih : ParserInv fuel) :
    ∀ els sp p e p', SpreadListOk els →
      parse_array_elements_push (fuel + 1) els sp p = (.ok e, p') → ExprOk e := by
  intro els sp p e p' hels h
  simp only [parse_array_elements_push] at h
  obtain ⟨el, p2, hel, h⟩ := pbind_ok h
  have hEl := ih.spread _ _ _ hel
  split at h
  · exact ih.array_elems _ _ _ _ _ (hels.append_single_spread hEl) h
  · obtain ⟨endsp, p3, he, h⟩ := pbind_ok h
    simp only [Prod.mk.injEq, Except.ok.injEq] at h
    obtain ⟨rfl, -⟩ := h
    exact ExprOk.arrayInline _ (hels.append_single_spread hEl)

theorem parser_inv_step_array {fuel : Nat} (ih : ParserInv fuel) :
    PSpan parse_array_expression (fuel + 1) := by
  intro sp p e p' h
  simp only [parse_array_expression] at h
  split at h
  · -- empty inline array
    simp only [Prod.mk.injEq, Except.ok.injEq] at h
    obtain ⟨rfl, -⟩ := h
    exact ExprOk.arrayInline _ SpreadListOk.nil_spread
  · obtain ⟨first, p2, hf, h⟩ := pbind_ok h
    have hFirst := ih.spread _ _ _ hf
    split at h
    · -- repeat array
      split at h
      · simp at h
      · obtain ⟨endsp, p4, he, h⟩ := pbind_ok h
        split at h
        · simp at h
        next x heq =>
          simp only [Prod.mk.injEq, Except.ok.injEq] at h
          obtain ⟨rfl, -⟩ := h
          exact ExprOk.arrayInit _ _ hFirst
    · -- inline array
      exact ih.array_elems _ _ _ _ _
        (SpreadListOk.cons_spread hFirst SpreadListOk.nil_spread) h

theorem parser_inv_step_primary {fuel : Nat} (ih : ParserInv fuel) :
    PE parse_primary_expression (fuel + 1) := by
  intro p e p' h
  simp only [parse_primary_expression] at h
  obtain ⟨st, p1, hst, h⟩ := pbind_ok h
  obtain ⟨tok, tsp⟩ := st
  dsimp only at h
  cases tok <;> (try dsimp only at h)
  case int value =>
    repeat' split at h
    all_goals
      first
      | (simp only [Prod.mk.injEq, Except.ok.injEq] at h
         obtain ⟨rfl, -⟩ := h
         exact ExprOk.value _)
      | simp at h
  case ident name =>
    split at h
    · exact ih.circuit _ _ _ _ _ h
    · simp only [Prod.mk.injEq, Except.ok.injEq] at h
      obtain ⟨rfl, -⟩ := h
      exact ExprOk.identifier _ _
  case kw k =>
    cases k <;> (try dsimp only at h)
    case leftParen => exact ih.tuple_e _ _ _ _ h
    case leftSquare => exact ih.array_e _ _ _ _ h
    case bigSelf =>
      split at h
      · exact ih.circuit _ _ _ _ _ h
      · simp only [Prod.mk.injEq, Except.ok.injEq] at h
        obtain ⟨rfl, -⟩ := h
        exact ExprOk.identifier _ _
    all_goals
      first
      | (simp only [Prod.mk.injEq, Except.ok.injEq] at h
         obtain ⟨rfl, -⟩ := h
         first
         | exact ExprOk.value _
         | exact ExprOk.identifier _ _)
      | (split at h
         · simp only [Prod.mk.injEq, Except.ok.injEq] at h
           obtain ⟨rfl, -⟩ := h
           exact ExprOk.identifier _ _
         · simp at h)
  all_goals
    simp only [Prod.mk.injEq, Except.ok.injEq] at h
    obtain ⟨rfl, -⟩ := h
    exact ExprOk.value _

/-- The node invariants hold in every successful parser output, at every
fuel: by induction on fuel over all parser entry points
simultaneously. -/
theorem parser_inv : ∀ fuel, ParserInv fuel := by
  intro fuel
  induction fuel with
  | zero => exact parser_inv_zero
  | succ n ih =>
    exact ⟨parser_inv_step_expr ih, parser_inv_step_cond ih, parser_inv_step_disj ih,
      parser_inv_step_disj_loop ih, parser_inv_step_conj ih, parser_inv_step_conj_loop ih,
      parser_inv_step_equality ih, parser_inv_step_ordering ih,
      parser_inv_step_ordering_loop ih, parser_inv_step_additive ih,
      parser_inv_step_additive_loop ih, parser_inv_step_multiplicative ih,
      parser_inv_step_multiplicative_loop ih, parser_inv_step_exponential ih,
      parser_inv_step_cast ih, parser_inv_step_cast_loop ih, parser_inv_step_unary ih,
      parser_inv_step_postfix ih, parser_inv_step_postfix_loop ih,
      parser_inv_step_range_right ih, parser_inv_step_call_args ih,
      parser_inv_step_spread ih, parser_inv_step_circuit ih,
      parser_inv_step_circuit_members ih, parser_inv_step_tuple ih,
      parser_inv_step_tuple_args ih, parser_inv_step_array ih,
      parser_inv_step_array_elems ih, parser_inv_step_array_push ih,
      parser_inv_step_primary ih⟩

/-- C9: for every binary expression node constructed by the parser, at any
precedence level and nested anywhere in the returned tree, its span equals
the union of its left child's span and its right child's span. -/
theorem C9_binary_span_is_union :
    ∀ (fuel : Nat) (p : ParserContext) (e : Expression) (p' : ParserContext),
      parse_expression fuel p = (.ok e, p') → spansOkBin e = true :=
  fun fuel p e p' h => ((parser_inv fuel).expr p e p' h).1

/-- Witness for C9: the parse of `1 - 2` succeeds and its result satisfies
the binary span-union predicate. -/
theorem C9_binary_span_is_union_witness :
    parse_expression 64 ⟨[⟨.int "1", ⟨0,1⟩⟩, ⟨.minus, ⟨2,3⟩⟩, ⟨.int "2", ⟨4,5⟩⟩], false⟩
      = (.ok (.binary .sub (.value (.implicit "1" ⟨0,1⟩)) (.value (.implicit "2" ⟨4,5⟩)) ⟨0,5⟩),
         ⟨[], false⟩)
    ∧ spansOkBin
        (.binary .sub (.value (.implicit "1" ⟨0,1⟩)) (.value (.implicit "2" ⟨4,5⟩)) ⟨0,5⟩)
        = true :=
  ⟨rfl,
   C9_binary_span_is_union 64
     ⟨[⟨.int "1", ⟨0,1⟩⟩, ⟨.minus, ⟨2,3⟩⟩, ⟨.int "2", ⟨4,5⟩⟩], false⟩
     (.binary .sub (.value (.implicit "1" ⟨0,1⟩)) (.value (.implicit "2" ⟨4,5⟩)) ⟨0,5⟩)
     ⟨[], false⟩ rfl⟩

/-- C5 amended: no tuple-init node anywhere in a successfully parsed
expression has exactly one element — a parenthesized single expression
with no trailing comma is returned unwrapped rather than wrapped in a
node — but a zero-element tuple-init (from an empty pair of parentheses)
is possible, so "at least 2 elements" does not hold. -/
theorem C5_tuple_init_never_one_element :
    (∀ (fuel : Nat) (p : ParserContext) (e : Expression) (p' : ParserContext),
      parse_expression fuel p = (.ok e, p') → tupleLenOk e = true)
    ∧ (∀ (fuel : Nat) (sp : Span) (p p1 p2 : ParserContext) (e : Expression) (endsp : Span),
      p.eat_group_partial = (none, p1) →
      parse_tuple_args fuel [] p1 = (.ok ([e], endsp), p2) →
      parse_tuple_expression (fuel + 1) sp p = (.ok e, p2)) := by
  constructor
  · exact fun fuel p e p' h => ((parser_inv fuel).expr p e p' h).2
  · intro fuel sp p p1 p2 e endsp h1 h2
    simp [parse_tuple_expression, h1, h2, pbind]

/-- Witness for C5: the zero-element tuple-init from empty parentheses
satisfies the amended arity predicate, and the single-element collected
list of `(a)` is returned unwrapped as the identifier `a`. -/
theorem C5_tuple_init_never_one_element_witness :
    tupleLenOk (.tupleInit [] ⟨0,2⟩) = true
    ∧ parse_tuple_expression 63 ⟨0,1⟩
        ⟨[⟨.ident "a", ⟨1,2⟩⟩, ⟨.rightParen, ⟨2,3⟩⟩], false⟩
        = (.ok (.identifier "a" ⟨1,2⟩), ⟨[], false⟩) :=
  ⟨C5_tuple_init_never_one_element.1 64
     ⟨[⟨.leftParen, ⟨0,1⟩⟩, ⟨.rightParen, ⟨1,2⟩⟩], false⟩
     (.tupleInit [] ⟨0,2⟩) ⟨[], false⟩ rfl,
   C5_tuple_init_never_one_element.2 62 ⟨0,1⟩
     ⟨[⟨.ident "a", ⟨1,2⟩⟩, ⟨.rightParen, ⟨2,3⟩⟩], false⟩
     ⟨[⟨.ident "a", ⟨1,2⟩⟩, ⟨.rightParen, ⟨2,3⟩⟩], false⟩
     ⟨[], false⟩ (.identifier "a" ⟨1,2⟩) ⟨2,3⟩ rfl rfl⟩
